import Mathlib

/-!
# stimfit numeric core (`src/libstfnum/stfnum.h`): a shallow embedding

Conventions of the embedding.

* `double` and the template type `T` are the rationals `ℚ` (exact arithmetic); the
  values that the scalar expressions of `cubicSpline` take in IEEE 754 binary64 are
  given next to the exact ones (`round_double`, `queryPoint_double`).
* `std::vector<T>` is `List ℚ`; `v.size()` is `v.length`.
* Machine integers are `Nat`/`Int` with the wrap-around written out:
  `unsigned` counts modulo `2^32`, `std::size_t` modulo `2^64`, `int` is the
  two's-complement window `[-2^31, 2^31)`.
* A function that can throw, read out of bounds or loop forever returns an
  `Option`; loops whose counter can wrap take a `fuel` argument (the number of
  loop-condition evaluations allowed) and results are stated for all large
  enough fuel.
-/

namespace stfnum

/-! ## Machine integers and `std::vector` -/

/-- Number of values of the C++ type `unsigned` (32 bits). -/
def UINT_MOD : Nat := 2 ^ 32

/-- Number of values of `std::size_t` (64 bits). -/
def SIZE_MOD : Nat := 2 ^ 64

/-- Largest element count `std::vector<double>` accepts, `PTRDIFF_MAX / sizeof(double)`. -/
def vector_max_size : Nat := (2 ^ 63 - 1) / 8

/-- The constructor `std::vector<T>(n)`: `n` value-initialised (zero) elements;
`none` stands for the `std::length_error` thrown when `n > max_size()`. -/
def vector_alloc (n : Nat) : Option (List ℚ) :=
  if n ≤ vector_max_size then some (List.replicate n 0) else none

/-! ## `stfnum::diff` (stfnum.h:579-586) -/

/-- The element count `input.size()-1` of `diffVA`, computed in `std::size_t`. -/
def diff_size (input : List ℚ) : Nat :=
  (input.length + SIZE_MOD - 1) % SIZE_MOD

/-- The loop `for (unsigned n=0;n<diffVA.size();++n) diffVA[n]=(input[n+1]-input[n])/x_scale;`
started at counter value `n`. The counter and the index `n+1` are `unsigned`, so both
wrap at `2^32`, while `diffVA.size()` is a `std::size_t`. An out-of-bounds read
and running out of `fuel` give `none`. -/
def diffLoop (input : List ℚ) (x_scale : ℚ) : Nat → Nat → List ℚ → Option (List ℚ)
  | 0, _, _ => none
  | fuel + 1, n, diffVA =>
    if n < diffVA.length then
      match input[(n + 1) % UINT_MOD]?, input[n]? with
      | some a, some b =>
        diffLoop input x_scale fuel ((n + 1) % UINT_MOD) (diffVA.set n ((a - b) / x_scale))
      | _, _ => none
    else some diffVA

/-- The function `stfnum::diff(input, x_scale)`: allocate `diffVA(input.size()-1)`, run the loop,
return `diffVA`. -/
def diff (fuel : Nat) (input : List ℚ) (x_scale : ℚ) : Option (List ℚ) :=
  (vector_alloc (diff_size input)).bind fun diffVA => diffLoop input x_scale fuel 0 diffVA

/-! ## `stfnum::cubicSpline` (stfnum.h:549-577)

`spline_cubic_set` and `spline_cubic_val` are declared in `spline.h`, which is not
among the sources; `cubicSpline` takes them as the parameters `set` and `val`. -/

/-- The cast `(int)y.size()`: a `std::size_t` reduced into the 32-bit two's-complement
window of `int`. -/
def int_of_size_t (n : Nat) : Int :=
  if n % 2 ^ 32 < 2 ^ 31 then ((n % 2 ^ 32 : Nat) : Int) else ((n % 2 ^ 32 : Nat) : Int) - 2 ^ 32

/-- The cast `(int)d` of a `double`: truncation toward zero; `none` when the truncated
value is not an `int` (undefined behaviour in C++). -/
def int_of_double (d : ℚ) : Option Int :=
  let t := Int.tdiv d.num (d.den : Int)
  if -(2 ^ 31) ≤ t ∧ t < 2 ^ 31 then some t else none

/-- The conversion of an `int` to `std::size_t` at a call `std::vector<T>(n)`. -/
def size_t_of_int (i : Int) : Nat :=
  (i % (2 ^ 64 : Int)).toNat

/-- The loop `for (int n_p=0; n_p < size; ++n_p) { x[n_p]=n_p; y_d[n_p]=y[n_p]; }`
with `todo` iterations left (`todo = size - n_p`); the state is `(x, y_d)`. An access
out of bounds gives `none`. -/
def knotLoop (y : List ℚ) : Nat → Nat → List ℚ × List ℚ → Option (List ℚ × List ℚ)
  | 0, _, s => some s
  | todo + 1, n_p, (x, y_d) =>
    match y[n_p]? with
    | some v =>
      if n_p < x.length ∧ n_p < y_d.length then
        knotLoop y todo (n_p + 1) (x.set n_p (n_p : ℚ), y_d.set n_p v)
      else none
    | none => none

/-- Lines 556-565 of `cubicSpline`: `size`, the vectors `x` and `y_d` filled by the first
loop, and `y_i = spline_cubic_set(x,y_d,0,0,0,0)`. Returns `(x, y_d, y_i)`. -/
def cubicSplineFit (set : List ℚ → List ℚ → Int → ℚ → Int → ℚ → List ℚ) (y : List ℚ) :
    Option (List ℚ × List ℚ × List ℚ) :=
  let size : Int := int_of_size_t y.length
  match vector_alloc (size_t_of_int size), vector_alloc (size_t_of_int size) with
  | some x, some y_d =>
    match knotLoop y size.toNat 0 (x, y_d) with
    | some (x, y_d) => some (x, y_d, set x y_d 0 0 0 0)
    | none => none
  | _, _ => none

/-- The query point `(double)n_i * (double)size/(double)size_i` of line 572 in exact
arithmetic; `queryPoint_double` is the value the code computes in binary64. -/
def queryPoint (size size_i : Int) (n_i : Nat) : ℚ :=
  (n_i : ℚ) * (size : ℚ) / (size_i : ℚ)

/-- The loop `for (int n_i=0; n_i < size_i; ++n_i)` of lines 571-575 with `todo`
iterations left; the state is `(x_i, y_if)`: `x_i[n_i]` gets the query point and
`y_if[n_i]` the value `spline_cubic_val(x,x_i[n_i],y_d,y_i,yp,ypp)`. -/
def evalLoop (val : List ℚ → ℚ → List ℚ → List ℚ → ℚ) (x y_d y_i : List ℚ)
    (size size_i : Int) : Nat → Nat → List ℚ × List ℚ → Option (List ℚ × List ℚ)
  | 0, _, s => some s
  | todo + 1, n_i, (x_i, y_if) =>
    if n_i < x_i.length ∧ n_i < y_if.length then
      evalLoop val x y_d y_i size size_i todo (n_i + 1)
        (x_i.set n_i (queryPoint size size_i n_i),
          y_if.set n_i (val x (queryPoint size size_i n_i) y_d y_i))
    else none

/-- The body of `cubicSpline(y, oldF, newF)`, returning the query points `x_i` next to
the result `y_if`. -/
def cubicSplineRun (set : List ℚ → List ℚ → Int → ℚ → Int → ℚ → List ℚ)
    (val : List ℚ → ℚ → List ℚ → List ℚ → ℚ) (y : List ℚ) (oldF newF : ℚ) :
    Option (List ℚ × List ℚ) :=
  let factor_i : ℚ := newF / oldF
  let size : Int := int_of_size_t y.length
  match int_of_double ((size : ℚ) * factor_i) with
  | none => none
  | some size_i =>
    match cubicSplineFit set y with
    | none => none
    | some (x, y_d, y_i) =>
      match vector_alloc (size_t_of_int size_i), vector_alloc (size_t_of_int size_i) with
      | some y_if, some x_i =>
        evalLoop val x y_d y_i size size_i size_i.toNat 0 (x_i, y_if)
      | _, _ => none

/-- The function `stfnum::cubicSpline(y, oldF, newF)`: the vector `y_if` it returns. -/
def cubicSpline (set : List ℚ → List ℚ → Int → ℚ → Int → ℚ → List ℚ)
    (val : List ℚ → ℚ → List ℚ → List ℚ → ℚ) (y : List ℚ) (oldF newF : ℚ) :
    Option (List ℚ) :=
  (cubicSplineRun set val y oldF newF).map Prod.snd

/-- The knot abscissae `0, 1, ..., m-1` that the first loop of `cubicSpline` stores
in `x`. -/
def knots (m : Nat) : List ℚ :=
  (List.range m).map fun (n_p : Nat) => (n_p : ℚ)

/-- The premise "the spline evaluator interpolates its knots" for the samples `y`:
at every knot abscissa `n` the evaluator returns the sample `y[n]`. -/
def InterpolatesKnots (set : List ℚ → List ℚ → Int → ℚ → Int → ℚ → List ℚ)
    (val : List ℚ → ℚ → List ℚ → List ℚ → ℚ) (y : List ℚ) : Prop :=
  ∀ n, n < y.length →
    some (val (knots y.length) (n : ℚ) y (set (knots y.length) y 0 0 0 0)) = y[n]?

instance (set : List ℚ → List ℚ → Int → ℚ → Int → ℚ → List ℚ)
    (val : List ℚ → ℚ → List ℚ → List ℚ → ℚ) (y : List ℚ) :
    Decidable (InterpolatesKnots set val y) := by
  unfold InterpolatesKnots
  infer_instance

/-! ## The scalar expressions of `cubicSpline` in IEEE 754 binary64

The embedding of `cubicSpline` above is in exact arithmetic. The code evaluates
`factor_i`, `size_i` and the query points in `double`: every operation returns the
exact result rounded to the nearest binary64 value, a tie to the one with even
significand. Overflow and subnormal values are not modelled: the values rounded here are
sample counts, rates and their products and quotients. -/

/-- Rounding to the nearest integer, a tie to the even one. -/
def roundHalfEven (m : ℚ) : Int :=
  if m - ⌊m⌋ < 1 / 2 then ⌊m⌋
  else if 1 / 2 < m - ⌊m⌋ then ⌊m⌋ + 1
  else if ⌊m⌋ % 2 = 0 then ⌊m⌋ else ⌊m⌋ + 1

/-- The binary64 value of an exact result `q`: with `2^e ≤ |q| < 2^(e+1)`, the multiple
of `2^(e-52)` nearest to `q` (53 significant bits), a tie to the even multiple. -/
def round_double (q : ℚ) : ℚ :=
  if q = 0 then 0
  else (roundHalfEven (q / 2 ^ (Int.log 2 |q| - 52)) : ℚ) * 2 ^ (Int.log 2 |q| - 52)

/-- The value of `double factor_i=newF/oldF` (line 555) for the doubles `oldF`, `newF`. -/
def factor_i_double (oldF newF : ℚ) : ℚ :=
  round_double (newF / oldF)

/-- The value of `int size_i=(int)(size*factor_i)` (line 558): the `int` `size` is
converted to `double` exactly, the product is rounded, the cast truncates. -/
def size_i_double (size : Int) (oldF newF : ℚ) : Option Int :=
  int_of_double (round_double ((size : ℚ) * factor_i_double oldF newF))

/-- The value of `x_i[n_i]=(double)n_i * (double)size/(double)size_i` (line 572): the
three `int`s are converted exactly, the product is rounded, then the quotient. -/
def queryPoint_double (size size_i : Int) (n_i : Nat) : ℚ :=
  round_double (round_double ((n_i : ℚ) * (size : ℚ)) / (size_i : ℚ))

/-! ## `spline_cubic_set` (declared in `spline.h`, not among the sources) -/

/-- One equation `a * ypp[i-1] + b * ypp[i] + c * ypp[i+1] = d` of the tridiagonal
system for the second derivatives `ypp` of a cubic spline. -/
structure SplineRow where
  a : ℚ
  b : ℚ
  c : ℚ
  d : ℚ

/-- The equations of the interior knots: the first derivative of the spline is
continuous at `t[i]`, for `0 < i < n-1`. -/
def splineInterior : List ℚ → List ℚ → List SplineRow
  | t0 :: t1 :: t2 :: ts, y0 :: y1 :: y2 :: ys =>
    { a := (t1 - t0) / 6, b := (t2 - t0) / 3, c := (t2 - t1) / 6,
      d := (y2 - y1) / (t2 - t1) - (y1 - y0) / (t1 - t0) } ::
      splineInterior (t1 :: t2 :: ts) (y1 :: y2 :: ys)
  | _, _ => []

/-- The whole system: the second derivative is `ybcbeg` at the first knot and `ybcend`
at the last one, with the interior equations in between. -/
def splineRows (t y : List ℚ) (ybcbeg ybcend : ℚ) : List SplineRow :=
  match t with
  | [] => []
  | [_] => [{ a := 0, b := 1, c := 0, d := ybcbeg }]
  | _ :: _ :: _ =>
    ({ a := 0, b := 1, c := 0, d := ybcbeg } : SplineRow) ::
      (splineInterior t y ++ [{ a := 0, b := 1, c := 0, d := ybcend }])

/-- Forward elimination of the tridiagonal solve; the second argument is the
eliminated pair `(c', d')` of the row above. -/
def thomasForward : List SplineRow → ℚ × ℚ → List (ℚ × ℚ)
  | [], _ => []
  | r :: rs, (cp, dp) =>
    let den := r.b - r.a * cp
    (r.c / den, (r.d - r.a * dp) / den) ::
      thomasForward rs (r.c / den, (r.d - r.a * dp) / den)

/-- Back substitution of the tridiagonal solve. -/
def thomasBack : List (ℚ × ℚ) → List ℚ
  | [] => []
  | (c, d) :: rest => (d - c * (thomasBack rest).headD 0) :: thomasBack rest

/-- Modelled from the spec: `spline_cubic_set` is declared in `spline.h`, which is
missing. The spec (4.6) describes what `cubicSpline` obtains from the call
`spline_cubic_set(x,y_d,0,0,0,0)` as a "natural cubic-spline fit through the original
samples (zero second-derivative boundary conditions)". The model returns the second
derivatives at the knots of the cubic spline through `(t[i], y[i])` whose second
derivative is `ybcbeg` at the first and `ybcend` at the last knot; the spec does not
describe the flags `ibcbeg`, `ibcend`, and the model does not read them. -/
def spline_cubic_set (t y : List ℚ) (_ibcbeg : Int) (ybcbeg : ℚ) (_ibcend : Int)
    (ybcend : ℚ) : List ℚ :=
  thomasBack (thomasForward (splineRows t y ybcbeg ybcend) (0, 0))

/-! ## `parInfo` (stfnum.h:93-134) -/

/-- The type `Scale`: a callable `double(double, double, double, double, double)`. -/
abbrev Scale : Type := ℚ → ℚ → ℚ → ℚ → ℚ → ℚ

/-- Modelled from the spec: the body of `noscale` is missing (stfnum.h:97 only declares
`double noscale(double param, double xscale, double xoff, double yscale, double yoff)`);
the spec (4.1) says "`noscale` is the identity on `param`". -/
def noscale (param _xscale _xoff _yscale _yoff : ℚ) : ℚ := param

/-- The struct `parInfo` with its seven data members (stfnum.h:127-133). -/
structure parInfo where
  desc : String
  toFit : Bool
  constrained : Bool
  constr_lb : ℚ
  constr_ub : ℚ
  scale : Scale
  unscale : Scale

/-- The default constructor `parInfo()` (stfnum.h:107-108). -/
def parInfo.ctor0 : parInfo :=
  { desc := "", toFit := true, constrained := false, constr_lb := 0, constr_ub := 0,
    scale := noscale, unscale := noscale }

/-- The constructor `parInfo(desc_, toFit_, constrained_ = false, constr_lb_ = 0,
constr_ub_ = 0, scale_ = noscale, unscale_ = noscale)` (stfnum.h:120-125). Its
initialiser list is `desc(desc_), toFit(toFit_), constrained(false),
constr_lb(constr_lb_), constr_ub(constr_ub_), scale(scale_), unscale(unscale_)`. -/
def parInfo.ctor7 (desc_ : String) (toFit_ : Bool) (_constrained_ : Bool := false)
    (constr_lb_ : ℚ := 0) (constr_ub_ : ℚ := 0) (scale_ : Scale := noscale)
    (unscale_ : Scale := noscale) : parInfo :=
  { desc := desc_, toFit := toFit_, constrained := false, constr_lb := constr_lb_,
    constr_ub := constr_ub_, scale := scale_, unscale := unscale_ }

/-- The descriptor invariant of the spec (section 3): if `constrained` is true then
`constr_lb ≤ constr_ub`. -/
def parInfo.invariant (p : parInfo) : Prop :=
  p.constrained = true → p.constr_lb ≤ p.constr_ub

instance (p : parInfo) : Decidable p.invariant := by
  unfold parInfo.invariant
  infer_instance

/-! ## `Table` (stfnum.h:136-225) -/

/-- The exceptions of the standard library that the modelled members throw. -/
inductive StdException where
  | out_of_range
  | length_error
  deriving DecidableEq, Repr

/-- The class `Table` with its four private data members (stfnum.h:220-224); `values`
and `empty` are stored row by row. -/
structure Table where
  values : List (List ℚ)
  empty : List (List Bool)
  rowLabels : List String
  colLabels : List String

/-- The member `Table::nRows()`: `return rowLabels.size();` (stfnum.h:207). -/
def Table.nRows (t : Table) : Nat := t.rowLabels.length

/-- The member `Table::nCols()`: `return colLabels.size();` (stfnum.h:212). -/
def Table.nCols (t : Table) : Nat := t.colLabels.length

/-- Modelled from the spec: the body of the constructor `Table(nRows, nCols)` is missing
(stfnum.h:145 only declares it, "Initial number of rows", "Initial number of columns").
The model gives every member the stated dimensions; the initial cell value and labels
are not described and are taken as `0` and the empty string. -/
def Table.ctor (nRows nCols : Nat) : Table :=
  { values := List.replicate nRows (List.replicate nCols 0),
    empty := List.replicate nRows (List.replicate nCols false),
    rowLabels := List.replicate nRows "",
    colLabels := List.replicate nCols "" }

/-- The shape every `Table` object has: `values` holds one row per row label and each
row one cell per column label. -/
def Table.WellFormed (t : Table) : Prop :=
  t.values.length = t.rowLabels.length ∧ ∀ r ∈ t.values, r.length = t.colLabels.length

instance (t : Table) : Decidable t.WellFormed := by
  unfold Table.WellFormed
  infer_instance

/-- Modelled from the spec: the body of `double Table::at(row, col) const` is missing
(stfnum.h:157 only declares it: "Range-checked access. Returns a copy. Throws
std::out_of_range if out of range."). The model is the range-checked lookup
`values.at(row).at(col)` in the row-major member `values`. -/
def Table.at (t : Table) (row col : Nat) : Except StdException ℚ :=
  match t.values[row]? with
  | none => .error .out_of_range
  | some r =>
    match r[col]? with
    | none => .error .out_of_range
    | some v => .ok v

/-- Modelled from the spec: the body of `double& Table::at(row, col)` is missing
(stfnum.h:164 only declares it: "Range-checked access. Returns a reference. Throws
std::out_of_range if out of range."). A reference is modelled by what can be done with
it: the assignment `t.at(row, col) = v` yields the table with that one cell replaced,
after the same range check as the const accessor. -/
def Table.at_assign (t : Table) (row col : Nat) (v : ℚ) : Except StdException Table :=
  match t.values[row]? with
  | none => .error .out_of_range
  | some r =>
    match r[col]? with
    | none => .error .out_of_range
    | some _ => .ok { t with values := t.values.set row (r.set col v) }

/-! ## `storedFunc` (stfnum.h:67-94, 227-297) -/

/-- The type `Func`: a callable `double(double, const Vector_double&)`. -/
abbrev Func : Type := ℚ → List ℚ → ℚ

/-- The type `Jac`: a callable `Vector_double(double, const Vector_double&)`. -/
abbrev Jac : Type := ℚ → List ℚ → List ℚ

/-- The type `Init`: a callable `void(const Vector_double&, double, double, double, double,
double, Vector_double&)`; the last argument is written, so the model returns it. -/
abbrev Init : Type := List ℚ → ℚ → ℚ → ℚ → ℚ → ℚ → List ℚ → List ℚ

/-- The type `Output`: a callable
`Table(const Vector_double&, const std::vector<stfnum::parInfo>, double)`. -/
abbrev Output : Type := List ℚ → List parInfo → ℚ → Table

/-- The struct `storedFunc` with its seven data members (stfnum.h:288-294). -/
structure storedFunc where
  name : String
  pInfo : List parInfo
  func : Func
  init : Init
  jac : Jac
  hasJac : Bool
  output : Output

/-- The constructor `storedFunc(name_, pInfo_, func_, init_, jac_, hasJac_ = true,
output_ = defaultOutput)` (stfnum.h:268-281), with the initialiser list
`name(name_),pInfo(pInfo_),func(func_),init(init_),jac(jac_),hasJac(hasJac_),output(output_)`
and an empty body. The function `defaultOutput` is only declared (stfnum.h:243); it is
the first parameter of the model. -/
def storedFunc.ctor (defaultOutput : Output) (name_ : String) (pInfo_ : List parInfo)
    (func_ : Func) (init_ : Init) (jac_ : Jac) (hasJac_ : Bool := true)
    (output_ : Output := defaultOutput) : storedFunc :=
  { name := name_, pInfo := pInfo_, func := func_, init := init_, jac := jac_,
    hasJac := hasJac_, output := output_ }

/-! ## `peakIndices` (declared at stfnum.h:443-450, body not among the sources) -/

/-- The reading of "within `minDistance` samples of" used below: the two indices differ
by at most `minDistance`. -/
def withinDistance (minDistance : Int) (a b : Nat) : Bool :=
  decide (|(b : Int) - (a : Int)| ≤ minDistance)

/-- A local maximum of `data`: a sample that is not below either of its neighbours. -/
def isLocalMax (data : List ℚ) (i : Nat) : Bool :=
  match data[i]? with
  | none => false
  | some v =>
    (i = 0 || decide (data.getD (i - 1) v ≤ v)) && decide (data.getD (i + 1) v ≤ v)

/-- The candidate peaks in scan order: the indices of the local maxima whose value
exceeds `threshold`. -/
def peakCandidates (data : List ℚ) (threshold : ℚ) : List Nat :=
  (List.range data.length).filter fun i =>
    decide (threshold < data.getD i threshold) && isLocalMax data i

/-- The greedy left-to-right scan: a candidate is discarded when it lies within
`minDistance` samples of a peak accepted before it, and accepted otherwise. -/
def acceptPeaks (minDistance : Int) : List Nat → List Nat → List Nat
  | [], accepted => accepted
  | c :: cs, accepted =>
    if accepted.any fun a => withinDistance minDistance a c then
      acceptPeaks minDistance cs accepted
    else acceptPeaks minDistance cs (accepted ++ [c])

/-- Modelled from the spec: the body of `peakIndices(data, threshold, minDistance)` is
missing (stfnum.h:450 only declares it). The spec (4.5) says it "returns the ordered
indices of local maxima whose value exceeds `threshold`, discarding any candidate peak
that falls within `minDistance` samples of an already-accepted peak (greedy,
left-to-right scan — ties broken by earliest index accepted first, later peak
suppressed)". The result is a `std::vector<int>`. -/
def peakIndices (data : List ℚ) (threshold : ℚ) (minDistance : Int) : List Int :=
  (acceptPeaks minDistance (peakCandidates data threshold) []).map fun (i : Nat) => (i : Int)

/-- The synthetic signal of the spec's test: `len` samples, all zero but for unit
impulses at the indices 10 and 12. -/
def twoImpulses (len : Nat) : List ℚ :=
  (List.range len).map fun (i : Nat) => if i = 10 ∨ i = 12 then (1 : ℚ) else 0

/-! ## `linsolv` (declared at stfnum.h:399-419, body not among the sources) -/

/-- The outcomes of `linsolv` other than a solution. -/
inductive LinsolvError where
  | singular_matrix
  | illegal_argument
  deriving DecidableEq, Repr

/-- The sum `a[0]*x[0] + a[1]*x[1] + ...` of a row of coefficients and a vector. -/
def dot : List ℚ → List ℚ → ℚ
  | a :: as, x :: xs => a * x + dot as xs
  | _, _ => 0

/-- Partial pivoting: the position of the first entry of largest absolute value. -/
def argmaxAbs : List ℚ → Nat
  | [] => 0
  | a :: as => if as.all (fun b => decide (|b| ≤ |a|)) then 0 else argmaxAbs as + 1

/-- One elimination step on the equation `e` (coefficients and right-hand side) with the
pivot equation `piv`: subtract the multiple of `piv` that cancels the first unknown,
and drop that unknown. -/
def eliminate (piv e : List ℚ × ℚ) : List ℚ × ℚ :=
  (List.zipWith (fun c p => c - e.1.headD 0 / piv.1.headD 0 * p) e.1.tail piv.1.tail,
    e.2 - e.1.headD 0 / piv.1.headD 0 * piv.2)

/-- Gaussian elimination with partial pivoting on equations in `k` unknowns, followed
by back substitution: choose the pivot row for the first unknown, exchange it with the
first row, eliminate the unknown from the other rows, solve those for the other
unknowns, then solve the pivot row for the first one. `none` when the pivot is zero. -/
def gaussSolve : Nat → List (List ℚ × ℚ) → Option (List ℚ)
  | 0, _ => some []
  | k + 1, eqs =>
    match eqs[argmaxAbs (eqs.map fun e => e.1.headD 0)]? with
    | none => none
    | some piv =>
      if piv.1.headD 0 = 0 then none
      else
        match gaussSolve k
            (((eqs.set (argmaxAbs (eqs.map fun e => e.1.headD 0)) (eqs.headD piv)).tail).map
              (eliminate piv)) with
        | none => none
        | some x => some ((piv.2 - dot piv.1.tail x) / piv.1.headD 0 :: x)

/-- Row `i` of the `n` by `n` matrix stored column by column in `A`. -/
def matrixRow (n : Nat) (A : List ℚ) (i : Nat) : List ℚ :=
  (List.range n).map fun (j : Nat) => A.getD (i + j * n) 0

/-- The system `A x = b` for the column `c` of the `n`-row matrix `B` stored column by
column. -/
def linearSystem (n : Nat) (A B : List ℚ) (c : Nat) : List (List ℚ × ℚ) :=
  (List.range n).map fun (i : Nat) => (matrixRow n A i, B.getD (i + c * n) 0)

/-- Modelled from the spec: the body of `linsolv(m, n, nrhs, A, B)` is missing
(stfnum.h:413 only declares it). The spec (4.6) says it "solves the dense linear
system(s) `A·X = B` via LU-style factorization with partial pivoting (column-major
storage); on return `A` holds the factorization and `B` holds the solution; reports a
singular-matrix condition rather than returning garbage". The model returns what is
left in `B`: column `c` is the solution of `A x = B[:,c]` by elimination with partial
pivoting, and a zero pivot gives the singular-matrix outcome. It does not describe what
is left in `A`, and it redoes the elimination for every column, which in exact arithmetic
gives the same `X`. The spec describes square systems only: other arguments are an
illegal-argument outcome. -/
def linsolv (m n nrhs : Int) (A B : List ℚ) : Except LinsolvError (List ℚ) :=
  if m < 0 ∨ n ≠ m ∨ nrhs < 0 ∨ (A.length : Int) ≠ m * n ∨ (B.length : Int) ≠ m * nrhs then
    .error .illegal_argument
  else
    match gaussSolve n.toNat (linearSystem n.toNat A [] 0) with
    | none => .error .singular_matrix
    | some _ =>
      .ok ((List.range (n.toNat * nrhs.toNat)).map fun (idx : Nat) =>
        ((gaussSolve n.toNat (linearSystem n.toNat A B (idx / n.toNat))).getD []).getD
          (idx % n.toNat) 0)

end stfnum

/-! ## `SWAP` (stfnum.h:538-547) -/

/-- The body `T aux=s1; s1=s2; s2=aux;` of `SWAP`, run on the function's own parameter
objects `s1` and `s2`: the values of `s1`, `s2` and `aux` when the body ends. -/
def SWAP_body {T : Type} (s1 s2 : T) : T × T × T :=
  let aux := s1
  let s1 := s2
  let s2 := aux
  (s1, s2, aux)

/-- The call `SWAP(x, y)` seen from the caller: the values of the caller's `x` and `y`
after it. The signature is `void SWAP(T s1, T s2)`: the parameters are passed by value,
so the body works on copies, which end with the call, and nothing is returned. -/
def SWAP {T : Type} (x y : T) : T × T :=
  let _params := SWAP_body x y
  (x, y)

/-! ## `wxStfOrderChannelsDlg` (smalldlgs.cpp:1073-1182)

Item indices and the loop counter are `long` (64 bits, which holds every index of a
vector) and are kept as integers `Int`. The entries of `channelOrder` are `int`
(`int orderFirst=channelOrder[itemId1]`), so the store `channelOrder[n_c]=n_c` of the
constructor narrows the `long` counter to `int`. -/

/-- The narrowing of a `long` to an `int` at the store `channelOrder[n_c]=n_c`: the value
reduced into the 32-bit two's-complement window of `int`. -/
def int_of_long (i : Int) : Int :=
  if i % 2 ^ 32 < 2 ^ 31 then i % 2 ^ 32 else i % 2 ^ 32 - 2 ^ 32

/-- The part of a `wxListCtrl` with the style `wxLC_LIST | wxLC_SINGLE_SEL` that the
dialog uses: the item labels in list order, and the position of the selected item, if
one is selected. -/
structure wxListCtrl where
  items : List String
  selected : Option Nat
  deriving DecidableEq, Repr

/-- The call `InsertItem(index, label)`: a new item with this label at position `index`. -/
def wxListCtrl.InsertItem (l : wxListCtrl) (index : Int) (label : String) : wxListCtrl :=
  { l with items := l.items.insertIdx index.toNat label }

/-- The call `GetItemCount()`. -/
def wxListCtrl.GetItemCount (l : wxListCtrl) : Int := (l.items.length : Int)

/-- The call `GetSelectedItemCount()`. -/
def wxListCtrl.GetSelectedItemCount (l : wxListCtrl) : Int :=
  match l.selected with
  | some _ => 1
  | none => 0

/-- The call `GetNextItem(item, wxLIST_NEXT_ALL, wxLIST_STATE_SELECTED)`: the first
selected item after position `item`, or `-1` when there is none. -/
def wxListCtrl.GetNextItem (l : wxListCtrl) (item : Int) : Int :=
  match l.selected with
  | some i => if item < (i : Int) then (i : Int) else -1
  | none => -1

/-- The call `GetItemText(item)`; `none` when there is no such item. -/
def wxListCtrl.GetItemText (l : wxListCtrl) (item : Int) : Option String :=
  if 0 ≤ item then l.items[item.toNat]? else none

/-- The call `SetItemText(item, label)`; `none` when there is no such item. -/
def wxListCtrl.SetItemText (l : wxListCtrl) (item : Int) (label : String) :
    Option wxListCtrl :=
  if 0 ≤ item ∧ item.toNat < l.items.length then
    some { l with items := l.items.set item.toNat label }
  else none

/-- The data members of `wxStfOrderChannelsDlg` that its handlers read and write: the
list control `m_List` and the `std::vector<int> channelOrder`. -/
structure wxStfOrderChannelsDlg where
  m_List : wxListCtrl
  channelOrder : List Int
  deriving DecidableEq, Repr

/-- The read `channelOrder[i]` with a `long` index; `none` when out of bounds. -/
def wxStfOrderChannelsDlg.orderGet (v : List Int) (i : Int) : Option Int :=
  if 0 ≤ i then v[i.toNat]? else none

/-- The write `channelOrder[i]=x` of the `int` `x` with a `long` index; `none` when out
of bounds. -/
def wxStfOrderChannelsDlg.orderSet (v : List Int) (i : Int) (x : Int) : Option (List Int) :=
  if 0 ≤ i ∧ i.toNat < v.length then some (v.set i.toNat x) else none

/-- The loop `for (long n_c=0;n_c<(long)channelNames.size();++n_c)` of the constructor
(smalldlgs.cpp:1091-1097) with `todo` iterations left: insert the item `n_c` with the
label `channelNames[n_c]`, then `channelOrder[n_c]=n_c`, which stores the counter
narrowed to `int`. -/
def wxStfOrderChannelsDlg.ctorLoop (channelNames : List String) :
    Nat → Nat → wxStfOrderChannelsDlg → Option wxStfOrderChannelsDlg
  | 0, _, s => some s
  | todo + 1, n_c, s =>
    match channelNames[n_c]?,
      wxStfOrderChannelsDlg.orderSet s.channelOrder n_c (int_of_long n_c) with
    | some label, some order =>
      wxStfOrderChannelsDlg.ctorLoop channelNames todo (n_c + 1)
        { m_List := s.m_List.InsertItem n_c label, channelOrder := order }
    | _, _ => none

/-- The constructor `wxStfOrderChannelsDlg(parent, channelNames, ...)`: the member
`channelOrder(channelNames.size())`, a new empty list control with nothing selected,
and the loop. The sizers and buttons hold no state of the model. -/
def wxStfOrderChannelsDlg.ctor (channelNames : List String) : Option wxStfOrderChannelsDlg :=
  wxStfOrderChannelsDlg.ctorLoop channelNames channelNames.length 0
    { m_List := { items := [], selected := none },
      channelOrder := List.replicate channelNames.length 0 }

/-- The member `SwapItems(itemId1, itemId2)` (smalldlgs.cpp:1171-1182), statement by
statement. -/
def wxStfOrderChannelsDlg.SwapItems (s : wxStfOrderChannelsDlg) (itemId1 itemId2 : Int) :
    Option wxStfOrderChannelsDlg := do
  let labelFirst ← s.m_List.GetItemText itemId1
  let orderFirst ← wxStfOrderChannelsDlg.orderGet s.channelOrder itemId1
  let labelSecond ← s.m_List.GetItemText itemId2
  let list1 ← s.m_List.SetItemText itemId1 labelSecond
  let list2 ← list1.SetItemText itemId2 labelFirst
  let orderSecond ← wxStfOrderChannelsDlg.orderGet s.channelOrder itemId2
  let order1 ← wxStfOrderChannelsDlg.orderSet s.channelOrder itemId1 orderSecond
  let order2 ← wxStfOrderChannelsDlg.orderSet order1 itemId2 orderFirst
  some { m_List := list2, channelOrder := order2 }

/-- The handler `OnUparrow` (smalldlgs.cpp:1139-1153); `event.Skip()` and `SetFocus()`
change no state of the model. -/
def wxStfOrderChannelsDlg.OnUparrow (s : wxStfOrderChannelsDlg) :
    Option wxStfOrderChannelsDlg :=
  if s.m_List.GetSelectedItemCount > 0 then
    let item : Int := s.m_List.GetNextItem (-1)
    if item ≤ 0 then some s
    else s.SwapItems (item - 1) item
  else some s

/-- The handler `OnDownarrow` (smalldlgs.cpp:1155-1169). -/
def wxStfOrderChannelsDlg.OnDownarrow (s : wxStfOrderChannelsDlg) :
    Option wxStfOrderChannelsDlg :=
  if s.m_List.GetSelectedItemCount > 0 then
    let item : Int := s.m_List.GetNextItem (-1)
    if item ≥ s.m_List.GetItemCount - 1 then some s
    else s.SwapItems item (item + 1)
  else some s

/-- The states of the dialog built from `channelNames` that a run can reach: the state
after construction, then any sequence of `OnUparrow`, `OnDownarrow`, `SwapItems(i, j)`
with `i, j < n`, and of changes of the selection by the user (to an item of the list,
or to none). -/
inductive wxStfOrderChannelsDlg.Reachable (channelNames : List String) :
    wxStfOrderChannelsDlg → Prop
  | init (s : wxStfOrderChannelsDlg) :
      wxStfOrderChannelsDlg.ctor channelNames = some s → Reachable channelNames s
  | select (s : wxStfOrderChannelsDlg) (sel : Option Nat) :
      Reachable channelNames s → (∀ i, sel = some i → i < channelNames.length) →
      Reachable channelNames { s with m_List := { s.m_List with selected := sel } }
  | up (s s' : wxStfOrderChannelsDlg) :
      Reachable channelNames s → s.OnUparrow = some s' → Reachable channelNames s'
  | down (s s' : wxStfOrderChannelsDlg) :
      Reachable channelNames s → s.OnDownarrow = some s' → Reachable channelNames s'
  | swap (s s' : wxStfOrderChannelsDlg) (i j : Nat) :
      Reachable channelNames s → i < channelNames.length → j < channelNames.length →
      s.SwapItems i j = some s' → Reachable channelNames s'

/-- The shape of a dialog state over `n` channels: the list control shows `n` items,
`channelOrder` has `n` entries, and the selected item, if any, is one of the list. -/
def wxStfOrderChannelsDlg.WellFormed (n : Nat) (s : wxStfOrderChannelsDlg) : Prop :=
  s.m_List.items.length = n ∧ s.channelOrder.length = n ∧
    ∀ i, s.m_List.selected = some i → i < n

/-! ## `wxStfChannelSelDlg` (smalldlgs.cpp:80-206)

Both combo boxes are filled with the channel names. `GetCount()` is an `unsigned int`,
which the handlers cast to `int`; a selection is an `int`, `wxNOT_FOUND = -1` for none.
`SetSelection` raises no event, so a handler runs only after the user has picked an
item in the combo box it is bound to. -/

/-- The cast `(int)m_comboBoxCh1->GetCount()`: an `unsigned int` reduced into the 32-bit
two's-complement window of `int`. -/
def int_of_unsigned (n : Nat) : Int :=
  if n % 2 ^ 32 < 2 ^ 31 then ((n % 2 ^ 32 : Nat) : Int) else ((n % 2 ^ 32 : Nat) : Int) - 2 ^ 32

/-- The part of a `wxComboBox` with the style `wxCB_DROPDOWN | wxCB_READONLY` that the
dialog uses: the items in list order and the index of the selected one. -/
structure wxComboBox where
  items : List String
  selection : Int
  deriving DecidableEq, Repr

/-- The call `GetCount()`, an `unsigned int`. -/
def wxComboBox.GetCount (c : wxComboBox) : Nat := c.items.length % 2 ^ 32

/-- The call `GetCurrentSelection()`, with the drop-down list closed. -/
def wxComboBox.GetCurrentSelection (c : wxComboBox) : Int := c.selection

/-- The call `SetSelection(n)` with the index of an item; `none` when there is no such
item. -/
def wxComboBox.SetSelection (c : wxComboBox) (n : Int) : Option wxComboBox :=
  if 0 ≤ n ∧ n.toNat < c.items.length then some { c with selection := n } else none

/-- The user picks the item `i` in the drop-down list of the combo box. -/
def wxComboBox.pick (c : wxComboBox) (i : Nat) : wxComboBox :=
  { c with selection := (i : Int) }

/-- The data members of `wxStfChannelSelDlg` that its handlers read and write. -/
structure wxStfChannelSelDlg where
  m_selChannel1 : Int
  m_selChannel2 : Int
  m_comboBoxCh1 : wxComboBox
  m_comboBoxCh2 : wxComboBox
  deriving DecidableEq, Repr

/-- The constructor `wxStfChannelSelDlg(parent, channelNames, ...)`: the members
`m_selChannel1(0), m_selChannel2(1)`, the two combo boxes created with the initial
values `channelNames[0]` and `channelNames[1]` and the channel names as items, then
`SetSelection(0)` and `SetSelection(1)` (smalldlgs.cpp:88-163). `none` when one of the
reads `channelNames[0]`, `channelNames[1]` is out of bounds. The sizers and buttons
hold no state of the model. -/
def wxStfChannelSelDlg.ctor (channelNames : List String) : Option wxStfChannelSelDlg := do
  let _value1 ← channelNames[0]?
  let _value2 ← channelNames[1]?
  let ch1 ← ({ items := channelNames, selection := -1 } : wxComboBox).SetSelection 0
  let ch2 ← ({ items := channelNames, selection := -1 } : wxComboBox).SetSelection 1
  some { m_selChannel1 := 0, m_selChannel2 := 1, m_comboBoxCh1 := ch1, m_comboBoxCh2 := ch2 }

/-- The loop of both handlers (smalldlgs.cpp:169-174, 182-187), from the counter value
`n_c` on, where `touched` is the combo box of the event and `other` the one to correct:
`for (int n_c=0;n_c<(int)touched->GetCount();++n_c)
   { if (n_c!=touched->GetCurrentSelection()) { other->SetSelection(n_c); break; } }`.
The result is the other combo box when the loop ends; `fuel` is the number of
evaluations of the loop condition allowed. -/
def wxStfChannelSelDlg.correctSelection (touched other : wxComboBox) :
    Nat → Int → Option wxComboBox
  | 0, _ => none
  | fuel + 1, n_c =>
    if n_c < int_of_unsigned touched.GetCount then
      if n_c ≠ touched.GetCurrentSelection then other.SetSelection n_c
      else wxStfChannelSelDlg.correctSelection touched other fuel (n_c + 1)
    else some other

/-- The handler `OnComboCh1` (smalldlgs.cpp:165-176); `event.Skip()` changes no state
of the model. The loop condition is evaluated at most `(int)GetCount() + 1` times. -/
def wxStfChannelSelDlg.OnComboCh1 (s : wxStfChannelSelDlg) : Option wxStfChannelSelDlg :=
  if s.m_comboBoxCh1.GetCurrentSelection = s.m_comboBoxCh2.GetCurrentSelection then
    (wxStfChannelSelDlg.correctSelection s.m_comboBoxCh1 s.m_comboBoxCh2
      ((int_of_unsigned s.m_comboBoxCh1.GetCount).toNat + 1) 0).map
      fun ch2 => { s with m_comboBoxCh2 := ch2 }
  else some s

/-- The handler `OnComboCh2` (smalldlgs.cpp:178-189). -/
def wxStfChannelSelDlg.OnComboCh2 (s : wxStfChannelSelDlg) : Option wxStfChannelSelDlg :=
  if s.m_comboBoxCh2.GetCurrentSelection = s.m_comboBoxCh1.GetCurrentSelection then
    (wxStfChannelSelDlg.correctSelection s.m_comboBoxCh2 s.m_comboBoxCh1
      ((int_of_unsigned s.m_comboBoxCh2.GetCount).toNat + 1) 0).map
      fun ch1 => { s with m_comboBoxCh1 := ch1 }
  else some s

/-- The member `OnOK` (smalldlgs.cpp:202-206): the returned `bool` and the state. -/
def wxStfChannelSelDlg.OnOK (s : wxStfChannelSelDlg) : Bool × wxStfChannelSelDlg :=
  (true, { s with m_selChannel1 := s.m_comboBoxCh1.GetCurrentSelection,
                  m_selChannel2 := s.m_comboBoxCh2.GetCurrentSelection })

/-- The states of the dialog built from `channelNames` that a run can reach: the state
after construction, then any sequence of events: the user picks an item of the first
combo box and `OnComboCh1` runs, the same for the second one and `OnComboCh2`, or
`OnOK` runs. -/
inductive wxStfChannelSelDlg.Reachable (channelNames : List String) :
    wxStfChannelSelDlg → Prop
  | init (s : wxStfChannelSelDlg) :
      wxStfChannelSelDlg.ctor channelNames = some s → Reachable channelNames s
  | comboCh1 (s s' : wxStfChannelSelDlg) (i : Nat) :
      Reachable channelNames s → i < s.m_comboBoxCh1.items.length →
      wxStfChannelSelDlg.OnComboCh1 { s with m_comboBoxCh1 := s.m_comboBoxCh1.pick i } = some s' →
      Reachable channelNames s'
  | comboCh2 (s s' : wxStfChannelSelDlg) (i : Nat) :
      Reachable channelNames s → i < s.m_comboBoxCh2.items.length →
      wxStfChannelSelDlg.OnComboCh2 { s with m_comboBoxCh2 := s.m_comboBoxCh2.pick i } = some s' →
      Reachable channelNames s'
  | ok (s : wxStfChannelSelDlg) :
      Reachable channelNames s → Reachable channelNames s.OnOK.2

namespace stfnum

/-! # Lemmas and claims

All definitions of the embedding stand above this line. -/

/-! ## Lemmas on `diff` -/

theorem UINT_MOD_eq : UINT_MOD = 4294967296 := by norm_num [UINT_MOD]

theorem SIZE_MOD_eq : SIZE_MOD = 18446744073709551616 := by norm_num [SIZE_MOD]

theorem vector_max_size_eq : vector_max_size = 1152921504606846975 := by
  norm_num [vector_max_size]

theorem vector_alloc_of_le {n : Nat} (h : n ≤ vector_max_size) :
    vector_alloc n = some (List.replicate n 0) := by
  simp [vector_alloc, h]

theorem vector_alloc_of_gt {n : Nat} (h : vector_max_size < n) : vector_alloc n = none := by
  unfold vector_alloc
  rw [if_neg (by omega)]

theorem diff_size_of_pos {input : List ℚ} (h1 : 1 ≤ input.length)
    (h2 : input.length ≤ SIZE_MOD) : diff_size input = input.length - 1 := by
  unfold diff_size
  have : input.length + SIZE_MOD - 1 = (input.length - 1) + SIZE_MOD := by omega
  rw [this, Nat.add_mod_right]
  exact Nat.mod_eq_of_lt (by omega)

/-- Loop invariant of `diffLoop`: when the element count fits the `unsigned` counter,
the loop started at `n` ends within `size - n + 1` condition checks, keeps the
entries below `n` and writes the scaled forward difference at every `k ≥ n`. -/
theorem diffLoop_spec (input : List ℚ) (x_scale : ℚ) :
    ∀ (fuel n : Nat) (diffVA : List ℚ),
      diffVA.length + 1 = input.length → diffVA.length < UINT_MOD →
      n ≤ diffVA.length → diffVA.length - n < fuel →
      ∃ out, diffLoop input x_scale fuel n diffVA = some out ∧
        out.length = diffVA.length ∧
        ∀ k, k < diffVA.length →
          out[k]? = if n ≤ k then
              some ((input.getD (k + 1) 0 - input.getD k 0) / x_scale)
            else diffVA[k]? := by
  intro fuel
  induction fuel with
  | zero => intro n diffVA _ _ _ h; omega
  | succ fuel ih =>
    intro n diffVA hlen hfit hn hfuel
    by_cases hlt : n < diffVA.length
    · have hmod : (n + 1) % UINT_MOD = n + 1 := Nat.mod_eq_of_lt (by omega)
      have h1 : n + 1 < input.length := by omega
      have h0 : n < input.length := by omega
      obtain ⟨out, hrun, hlen', hout⟩ :=
        ih (n + 1) (diffVA.set n ((input[n + 1] - input[n]) / x_scale))
          (by simpa using hlen) (by simpa using hfit) (by simpa using hlt)
          (by simp only [List.length_set]; omega)
      refine ⟨out, ?_, by simpa using hlen', ?_⟩
      · simp only [diffLoop, hlt, if_true, hmod, List.getElem?_eq_getElem h1,
          List.getElem?_eq_getElem h0]
        exact hrun
      · intro k hk
        rw [hout k (by simpa using hk)]
        by_cases hkn : n + 1 ≤ k
        · have : n ≤ k := by omega
          simp [hkn, this]
        · by_cases hkeq : k = n
          · subst hkeq
            simp [List.getElem?_set, hlt, List.getD_eq_getElem?_getD,
              List.getElem?_eq_getElem h1, List.getElem?_eq_getElem h0]
          · have h3 : ¬ n ≤ k := by omega
            have h4 : n ≠ k := fun h => hkeq h.symm
            simp [hkn, h3, List.getElem?_set, h4]
    · refine ⟨diffVA, by simp [diffLoop, hlt], rfl, ?_⟩
      intro k hk
      have h3 : ¬ n ≤ k := by omega
      simp [h3]

/-- When `diffVA` has `2^32` elements or more, the `unsigned` counter never
reaches `diffVA.size()`: the loop does not end, whatever the fuel. -/
theorem diffLoop_diverges (input : List ℚ) (x_scale : ℚ) :
    ∀ (fuel n : Nat) (diffVA : List ℚ),
      UINT_MOD ≤ diffVA.length → n < UINT_MOD →
      diffLoop input x_scale fuel n diffVA = none := by
  intro fuel
  induction fuel with
  | zero => intro n diffVA _ _; rfl
  | succ fuel ih =>
    intro n diffVA hbig hn
    have hlt : n < diffVA.length := by omega
    have hpos : 0 < UINT_MOD := by rw [UINT_MOD_eq]; omega
    simp only [diffLoop, hlt, if_true]
    split
    · exact ih _ _ (by simpa using hbig) (Nat.mod_lt _ hpos)
    · rfl

/-- More fuel does not change a result of `diffLoop`. -/
theorem diffLoop_mono (input : List ℚ) (x_scale : ℚ) :
    ∀ (fuel n : Nat) (diffVA out : List ℚ),
      diffLoop input x_scale fuel n diffVA = some out →
      ∀ fuel', fuel ≤ fuel' → diffLoop input x_scale fuel' n diffVA = some out := by
  intro fuel
  induction fuel with
  | zero => intro n diffVA out h; simp [diffLoop] at h
  | succ fuel ih =>
    intro n diffVA out h fuel' hle
    obtain ⟨m, rfl⟩ : ∃ m, fuel' = m + 1 := ⟨fuel' - 1, by omega⟩
    have hm : fuel ≤ m := by omega
    rw [diffLoop] at h ⊢
    by_cases hlt : n < diffVA.length
    · simp only [hlt, if_true] at h ⊢
      cases h1 : input[(n + 1) % UINT_MOD]? with
      | none => simp [h1] at h
      | some a =>
        cases h2 : input[n]? with
        | none => simp [h1, h2] at h
        | some b =>
          simp only [h1, h2] at h ⊢
          exact ih _ _ _ h m hm
    · simp only [hlt, if_false] at h ⊢
      exact h

/-- For an input of `1` to `2^32` elements `diff` returns, within `input.size()`
loop-condition checks, the vector of the `input.size()-1` scaled forward differences. -/
theorem diff_returns (input : List ℚ) (x_scale : ℚ) (hn : 1 ≤ input.length)
    (hfit : input.length ≤ 2 ^ 32) :
    ∃ out, (∀ fuel, input.length ≤ fuel → diff fuel input x_scale = some out) ∧
      out.length = input.length - 1 ∧
      ∀ k, k < input.length - 1 →
        out[k]? = some ((input.getD (k + 1) 0 - input.getD k 0) / x_scale) := by
  have hsize : diff_size input = input.length - 1 :=
    diff_size_of_pos hn (by rw [SIZE_MOD_eq]; omega)
  have halloc : vector_alloc (diff_size input) = some (List.replicate (input.length - 1) 0) := by
    rw [hsize]
    exact vector_alloc_of_le (by rw [vector_max_size_eq]; omega)
  obtain ⟨out, hrun, hlen, hout⟩ :=
    diffLoop_spec input x_scale input.length 0 (List.replicate (input.length - 1) 0)
      (by rw [List.length_replicate]; omega)
      (by rw [List.length_replicate, UINT_MOD_eq]; omega) (Nat.zero_le _)
      (by rw [List.length_replicate]; omega)
  refine ⟨out, ?_, by simpa using hlen, ?_⟩
  · intro fuel hfuel
    unfold diff
    rewrite [halloc]
    show diffLoop input x_scale fuel 0 _ = some out
    exact diffLoop_mono input x_scale _ _ _ _ hrun fuel hfuel
  · intro k hk
    have := hout k (by simpa using hk)
    simpa using this

/-- For an input of more than `2^32` elements (and fewer than `2^64`, as `size()` is a
`std::size_t`) `diff` does not return: either the allocation throws, or the `unsigned`
loop counter wraps before it reaches `diffVA.size()`. -/
theorem diff_diverges (input : List ℚ) (x_scale : ℚ) (hbig : 2 ^ 32 < input.length)
    (hvec : input.length < 2 ^ 64) (fuel : Nat) :
    diff fuel input x_scale = none := by
  have hsize : diff_size input = input.length - 1 :=
    diff_size_of_pos (by omega) (by rw [SIZE_MOD_eq]; omega)
  unfold diff
  rewrite [hsize]
  by_cases hle : input.length - 1 ≤ vector_max_size
  · rewrite [vector_alloc_of_le hle]
    show diffLoop input x_scale fuel 0 _ = none
    exact diffLoop_diverges input x_scale fuel 0 _
      (by rw [List.length_replicate, UINT_MOD_eq]; omega) (by rw [UINT_MOD_eq]; omega)
  · rewrite [vector_alloc_of_gt (by omega)]
    rfl

/-- More fuel does not change a result of `diff`. -/
theorem diff_mono (input : List ℚ) (x_scale : ℚ) (fuel fuel' : Nat) (out : List ℚ)
    (h : diff fuel input x_scale = some out) (hle : fuel ≤ fuel') :
    diff fuel' input x_scale = some out := by
  unfold diff at h ⊢
  rw [Option.bind_eq_some] at h ⊢
  obtain ⟨diffVA, halloc, hrun⟩ := h
  exact ⟨diffVA, halloc, diffLoop_mono input x_scale fuel 0 diffVA out hrun fuel' hle⟩

/-! ## Lemmas on the casts of `cubicSpline` -/

theorem int_of_size_t_of_lt {n : Nat} (h : n < 2 ^ 31) : int_of_size_t n = (n : Int) := by
  unfold int_of_size_t
  have h1 : n % 2 ^ 32 = n := Nat.mod_eq_of_lt (by omega)
  rw [h1, if_pos h]

theorem int_of_size_t_range (n : Nat) :
    -(2 ^ 31) ≤ int_of_size_t n ∧ int_of_size_t n < 2 ^ 31 := by
  unfold int_of_size_t
  split <;> omega

theorem int_of_size_t_toNat_le {n : Nat} (h : 0 ≤ int_of_size_t n) :
    (int_of_size_t n).toNat ≤ n := by
  unfold int_of_size_t at h ⊢
  have := Nat.mod_le n (2 ^ 32)
  by_cases hc : n % 2 ^ 32 < 2 ^ 31
  · rw [if_pos hc] at h ⊢
    omega
  · rw [if_neg hc] at h
    omega

theorem size_t_of_int_of_nonneg {i : Int} (h0 : 0 ≤ i) (h1 : i < 2 ^ 31) :
    size_t_of_int i = i.toNat := by
  unfold size_t_of_int
  rw [Int.emod_eq_of_lt h0 (by omega)]

theorem size_t_of_int_of_neg {i : Int} (h0 : i < 0) (h1 : -(2 ^ 31) ≤ i) :
    vector_max_size < size_t_of_int i := by
  unfold size_t_of_int
  rw [vector_max_size_eq]
  omega

theorem int_of_double_of_nonneg {q : ℚ} (h0 : 0 ≤ q) (h1 : q < 2 ^ 31) :
    int_of_double q = some ⌊q⌋ := by
  have ht : Int.tdiv q.num (q.den : Int) = ⌊q⌋ := by
    rw [Rat.floor_def, Int.tdiv_eq_ediv (Rat.num_nonneg.2 h0) (Int.natCast_nonneg _)]
  have hf0 : 0 ≤ ⌊q⌋ := Int.floor_nonneg.2 h0
  have hf1 : ⌊q⌋ < 2 ^ 31 := Int.floor_lt.2 (by exact_mod_cast h1)
  unfold int_of_double
  simp only [ht]
  rw [if_pos ⟨by omega, hf1⟩]

/-! ## Lemmas on binary64 rounding -/

/-- The exponent of the binade of `q`. -/
theorem log2_of_binade (q : ℚ) (e : Int) (h1 : 2 ^ e ≤ |q|) (h2 : |q| < 2 ^ (e + 1)) :
    Int.log 2 |q| = e := by
  have hpos : 0 < |q| := lt_of_lt_of_le (zpow_pos (by norm_num) e) h1
  have a : e ≤ Int.log 2 |q| :=
    (Int.zpow_le_iff_le_log (by norm_num) hpos).mp (by exact_mod_cast h1)
  have b : Int.log 2 |q| < e + 1 :=
    (Int.lt_zpow_iff_log_lt (by norm_num) hpos).mp (by exact_mod_cast h2)
  omega

theorem roundHalfEven_of_floor (m : ℚ) (f : Int) (h0 : (f : ℚ) ≤ m) (h1 : m < (f : ℚ) + 1) :
    roundHalfEven m =
      if m - f < 1 / 2 then f else if 1 / 2 < m - f then f + 1
      else if f % 2 = 0 then f else f + 1 := by
  have hf : ⌊m⌋ = f := Int.floor_eq_iff.mpr ⟨h0, h1⟩
  unfold roundHalfEven
  rw [hf]

/-- The binary64 value of a positive `q` from its binade `2^e ≤ q < 2^(e+1)` and the
integer part `f` of `q / 2^(e-52)`. -/
theorem round_double_of_binade (q : ℚ) (e f : Int) (h1 : 2 ^ e ≤ q) (h2 : q < 2 ^ (e + 1))
    (hf0 : (f : ℚ) ≤ q / 2 ^ (e - 52)) (hf1 : q / 2 ^ (e - 52) < (f : ℚ) + 1) :
    round_double q =
      ((if q / 2 ^ (e - 52) - f < 1 / 2 then f else if 1 / 2 < q / 2 ^ (e - 52) - f then f + 1
        else if f % 2 = 0 then f else f + 1 : Int) : ℚ) * 2 ^ (e - 52) := by
  have hpos : 0 < q := lt_of_lt_of_le (zpow_pos (by norm_num) e) h1
  have habs : |q| = q := abs_of_pos hpos
  unfold round_double
  rw [if_neg hpos.ne', log2_of_binade q e (by rw [habs]; exact h1) (by rw [habs]; exact h2),
    roundHalfEven_of_floor _ f hf0 hf1]

/-- The product `94906265 * 94906267` is above `2^53` and odd: it is rounded (a tie,
to the even neighbour). -/
theorem round_double_product_identity :
    round_double (94906265 * 94906267) = 9007199326062756 := by
  rw [round_double_of_binade _ 53 4503599663031377 (by norm_num) (by norm_num) (by norm_num)
    (by norm_num)]
  norm_num

/-- The query point of index `94906265` for `size = size_i = 94906267`, in binary64. -/
theorem queryPoint_double_identity :
    queryPoint_double 94906267 94906267 94906265 = 6369051630632961 / 67108864 := by
  unfold queryPoint_double
  have h : ((94906265 : Nat) : ℚ) * ((94906267 : Int) : ℚ) = 94906265 * 94906267 := by norm_num
  rw [h, round_double_product_identity,
    round_double_of_binade _ 26 6369051630632960 (by norm_num) (by norm_num) (by norm_num)
      (by norm_num)]
  norm_num

/-- The last query point for `size = 94906267`, `size_i = size + 1`, in binary64. -/
theorem queryPoint_double_last :
    queryPoint_double 94906267 94906268 94906267 = 94906266 := by
  unfold queryPoint_double
  have h : ((94906267 : Nat) : ℚ) * ((94906267 : Int) : ℚ) = 94906267 * 94906267 := by norm_num
  rw [h, round_double_of_binade (94906267 * 94906267) 53 4503599757937644 (by norm_num)
    (by norm_num) (by norm_num) (by norm_num)]
  norm_num
  rw [round_double_of_binade _ 26 6369051697741824 (by norm_num) (by norm_num) (by norm_num)
    (by norm_num)]
  norm_num

/-- Equal rates: `factor_i` is `1` and `size_i` is `size`, here for `94906267` samples. -/
theorem size_i_double_identity : size_i_double 94906267 1 1 = some 94906267 := by
  unfold size_i_double factor_i_double
  rw [round_double_of_binade (1 / 1) 0 4503599627370496 (by norm_num) (by norm_num)
    (by norm_num) (by norm_num)]
  norm_num
  rw [round_double_of_binade 94906267 26 6369051764850688 (by norm_num) (by norm_num)
    (by norm_num) (by norm_num)]
  norm_num
  rw [int_of_double_of_nonneg (by norm_num) (by norm_num)]
  norm_num

/-- The rates `2^26` and `2^26 + 1` on `94906267` samples: `factor_i` and the product
`size*factor_i = 94906268.41...` are exact, and `size_i` is `size + 1`. -/
theorem size_i_double_upsampling :
    size_i_double 94906267 67108864 67108865 = some 94906268 := by
  unfold size_i_double factor_i_double
  rw [round_double_of_binade (67108865 / 67108864) 0 4503599694479360 (by norm_num)
    (by norm_num) (by norm_num) (by norm_num)]
  norm_num
  rw [round_double_of_binade _ 26 6369051859756955 (by norm_num) (by norm_num)
    (by norm_num) (by norm_num)]
  norm_num
  have hfl : ⌊(6369051859756955 / 67108864 : ℚ)⌋ = 94906268 :=
    Int.floor_eq_iff.mpr ⟨by norm_num, by norm_num⟩
  rw [int_of_double_of_nonneg (by norm_num) (by norm_num), hfl]

/-! ## Lemmas on the loops of `cubicSpline` -/

/-- Loop invariant of `knotLoop`: run from `n_p` on vectors of `n_p + todo` elements, it
succeeds, keeps what is below `n_p` and writes the knot `k` and the sample `y[k]` at
every index `k` from `n_p` on. -/
theorem knotLoop_spec (y : List ℚ) :
    ∀ (todo n_p : Nat) (x y_d : List ℚ),
      x.length = n_p + todo → y_d.length = n_p + todo → n_p + todo ≤ y.length →
      ∃ x' y_d', knotLoop y todo n_p (x, y_d) = some (x', y_d') ∧
        ∀ k, x'[k]? = (if n_p ≤ k ∧ k < x.length then some (k : ℚ) else x[k]?) ∧
          y_d'[k]? = (if n_p ≤ k ∧ k < y_d.length then y[k]? else y_d[k]?) := by
  intro todo
  induction todo with
  | zero =>
    intro n_p x y_d hx hy _
    refine ⟨x, y_d, rfl, fun k => ?_⟩
    have h1 : ¬ (n_p ≤ k ∧ k < x.length) := by omega
    have h2 : ¬ (n_p ≤ k ∧ k < y_d.length) := by omega
    simp [h1, h2]
  | succ todo ih =>
    intro n_p x y_d hx hy hle
    have hy0 : n_p < y.length := by omega
    have hc : n_p < x.length ∧ n_p < y_d.length := ⟨by omega, by omega⟩
    obtain ⟨x', y_d', hrun, hout⟩ :=
      ih (n_p + 1) (x.set n_p (n_p : ℚ)) (y_d.set n_p y[n_p])
        (by rw [List.length_set]; omega) (by rw [List.length_set]; omega) (by omega)
    refine ⟨x', y_d', ?_, fun k => ?_⟩
    · rw [knotLoop]
      simp only [List.getElem?_eq_getElem hy0, hc, and_self, if_true]
      exact hrun
    · obtain ⟨hxk, hyk⟩ := hout k
      rw [hxk, hyk]
      simp only [List.length_set, List.getElem?_set]
      by_cases hk : n_p + 1 ≤ k
      · have h1 : n_p ≤ k := by omega
        have hne : n_p ≠ k := by omega
        simp [hk, h1, hne]
      · by_cases hkeq : n_p = k
        · subst hkeq
          simp [hc.1, hc.2, List.getElem?_eq_getElem hy0]
        · have h1 : ¬ n_p ≤ k := by omega
          simp [hk, h1, hkeq]

/-- The first loop of `cubicSpline` on freshly allocated vectors of `m ≤ y.size()`
elements: `x` becomes the knots `0..m-1` and `y_d` the first `m` samples. -/
theorem knotLoop_run (y : List ℚ) (m : Nat) (hm : m ≤ y.length) :
    knotLoop y m 0 (List.replicate m 0, List.replicate m 0) = some (knots m, y.take m) := by
  obtain ⟨x', y_d', hrun, hout⟩ :=
    knotLoop_spec y m 0 (List.replicate m 0) (List.replicate m 0)
      (by rw [List.length_replicate]; omega) (by rw [List.length_replicate]; omega) (by omega)
  have hx : x' = knots m := by
    apply List.ext_getElem?
    intro k
    rw [(hout k).1]
    unfold knots
    by_cases hk : k < m
    · simp only [List.length_replicate, Nat.zero_le, true_and, hk, if_true,
        List.getElem?_map, List.getElem?_range hk, Option.map_some']
    · simp only [List.length_replicate, Nat.zero_le, true_and, hk, if_false,
        List.getElem?_replicate, List.getElem?_map,
        List.getElem?_eq_none (l := List.range m) (by simpa using hk), Option.map_none']
  have hy : y_d' = y.take m := by
    apply List.ext_getElem?
    intro k
    rw [(hout k).2, List.getElem?_take]
    by_cases hk : k < m
    · simp [hk]
    · simp only [List.length_replicate, Nat.zero_le, true_and, hk, if_false,
        List.getElem?_replicate]
  rw [hrun, hx, hy]

/-- Lines 556-565 of `cubicSpline` in closed form: with `size = (int)y.size()`, the fit
is set up through the first `size` samples at the knots `0..size-1`; a negative `size`
makes the allocation `Vector_double x(size)` throw. -/
theorem cubicSplineFit_eq (set : List ℚ → List ℚ → Int → ℚ → Int → ℚ → List ℚ)
    (y : List ℚ) :
    cubicSplineFit set y =
      if 0 ≤ int_of_size_t y.length then
        some (knots (int_of_size_t y.length).toNat, y.take (int_of_size_t y.length).toNat,
          set (knots (int_of_size_t y.length).toNat)
            (y.take (int_of_size_t y.length).toNat) 0 0 0 0)
      else none := by
  obtain ⟨hlo, hhi⟩ := int_of_size_t_range y.length
  by_cases h0 : 0 ≤ int_of_size_t y.length
  · have halloc : vector_alloc (size_t_of_int (int_of_size_t y.length)) =
        some (List.replicate (int_of_size_t y.length).toNat 0) := by
      rw [size_t_of_int_of_nonneg h0 hhi]
      exact vector_alloc_of_le (by rw [vector_max_size_eq]; omega)
    simp only [cubicSplineFit, halloc, knotLoop_run y _ (int_of_size_t_toNat_le h0), h0,
      if_true]
  · have halloc : vector_alloc (size_t_of_int (int_of_size_t y.length)) = none :=
      vector_alloc_of_gt (size_t_of_int_of_neg (by omega) hlo)
    simp only [cubicSplineFit, halloc, h0, if_false]

/-- Loop invariant of `evalLoop`: run from `n_i` on vectors of `n_i + todo` elements, it
succeeds, keeps what is below `n_i` and writes the query point and the evaluated spline
at every index from `n_i` on. -/
theorem evalLoop_spec (val : List ℚ → ℚ → List ℚ → List ℚ → ℚ) (x y_d y_i : List ℚ)
    (size size_i : Int) :
    ∀ (todo n_i : Nat) (x_i y_if : List ℚ),
      x_i.length = n_i + todo → y_if.length = n_i + todo →
      ∃ x_i' y_if', evalLoop val x y_d y_i size size_i todo n_i (x_i, y_if) =
          some (x_i', y_if') ∧
        ∀ k, x_i'[k]? = (if n_i ≤ k ∧ k < x_i.length then
              some (queryPoint size size_i k) else x_i[k]?) ∧
          y_if'[k]? = (if n_i ≤ k ∧ k < y_if.length then
              some (val x (queryPoint size size_i k) y_d y_i) else y_if[k]?) := by
  intro todo
  induction todo with
  | zero =>
    intro n_i x_i y_if hx hy
    refine ⟨x_i, y_if, rfl, fun k => ?_⟩
    have h1 : ¬ (n_i ≤ k ∧ k < x_i.length) := by omega
    have h2 : ¬ (n_i ≤ k ∧ k < y_if.length) := by omega
    simp [h1, h2]
  | succ todo ih =>
    intro n_i x_i y_if hx hy
    have hc : n_i < x_i.length ∧ n_i < y_if.length := ⟨by omega, by omega⟩
    obtain ⟨x_i', y_if', hrun, hout⟩ :=
      ih (n_i + 1) (x_i.set n_i (queryPoint size size_i n_i))
        (y_if.set n_i (val x (queryPoint size size_i n_i) y_d y_i))
        (by rw [List.length_set]; omega) (by rw [List.length_set]; omega)
    refine ⟨x_i', y_if', ?_, fun k => ?_⟩
    · rw [evalLoop]
      simp only [hc, and_self, if_true]
      exact hrun
    · obtain ⟨hxk, hyk⟩ := hout k
      rw [hxk, hyk]
      simp only [List.length_set, List.getElem?_set]
      by_cases hk : n_i + 1 ≤ k
      · have h1 : n_i ≤ k := by omega
        have hne : n_i ≠ k := by omega
        simp [hk, h1, hne]
      · by_cases hkeq : n_i = k
        · subst hkeq
          simp [hc.1, hc.2]
        · have h1 : ¬ n_i ≤ k := by omega
          simp [hk, h1, hkeq]

/-- The second loop of `cubicSpline` on freshly allocated vectors of `m` elements. -/
theorem evalLoop_run (val : List ℚ → ℚ → List ℚ → List ℚ → ℚ) (x y_d y_i : List ℚ)
    (size size_i : Int) (m : Nat) :
    evalLoop val x y_d y_i size size_i m 0 (List.replicate m 0, List.replicate m 0) =
      some ((List.range m).map (queryPoint size size_i),
        (List.range m).map fun k => val x (queryPoint size size_i k) y_d y_i) := by
  obtain ⟨x_i', y_if', hrun, hout⟩ :=
    evalLoop_spec val x y_d y_i size size_i m 0 (List.replicate m 0) (List.replicate m 0)
      (by rw [List.length_replicate]; omega) (by rw [List.length_replicate]; omega)
  have hx : x_i' = (List.range m).map (queryPoint size size_i) := by
    apply List.ext_getElem?
    intro k
    rw [(hout k).1]
    by_cases hk : k < m
    · simp only [List.length_replicate, Nat.zero_le, true_and, hk, if_true,
        List.getElem?_map, List.getElem?_range hk, Option.map_some']
    · simp only [List.length_replicate, Nat.zero_le, true_and, hk, if_false,
        List.getElem?_replicate, List.getElem?_map,
        List.getElem?_eq_none (l := List.range m) (by simpa using hk), Option.map_none']
  have hy : y_if' = (List.range m).map fun k => val x (queryPoint size size_i k) y_d y_i := by
    apply List.ext_getElem?
    intro k
    rw [(hout k).2]
    by_cases hk : k < m
    · simp only [List.length_replicate, Nat.zero_le, true_and, hk, if_true,
        List.getElem?_map, List.getElem?_range hk, Option.map_some']
    · simp only [List.length_replicate, Nat.zero_le, true_and, hk, if_false,
        List.getElem?_replicate, List.getElem?_map,
        List.getElem?_eq_none (l := List.range m) (by simpa using hk), Option.map_none']
  rw [hrun, hx, hy]

theorem int_of_double_range {q : ℚ} {t : Int} (h : int_of_double q = some t) :
    -(2 ^ 31) ≤ t ∧ t < 2 ^ 31 := by
  unfold int_of_double at h
  simp only at h
  split at h
  · rename_i hc
    rw [← Option.some.inj h]
    exact hc
  · exact absurd h (by simp)

/-- The body of `cubicSpline` in closed form when neither `size` nor `size_i` is negative: the fit goes
through the first `size` samples, and output `k` is the spline evaluated at the query
point `k * size / size_i`, for `k < size_i`. -/
theorem cubicSplineRun_eq (set : List ℚ → List ℚ → Int → ℚ → Int → ℚ → List ℚ)
    (val : List ℚ → ℚ → List ℚ → List ℚ → ℚ) (y : List ℚ) (oldF newF : ℚ) (size_i : Int)
    (hsi : int_of_double (((int_of_size_t y.length : Int) : ℚ) * (newF / oldF)) = some size_i)
    (h0 : 0 ≤ int_of_size_t y.length) (hi0 : 0 ≤ size_i) :
    cubicSplineRun set val y oldF newF =
      some ((List.range size_i.toNat).map (queryPoint (int_of_size_t y.length) size_i),
        (List.range size_i.toNat).map fun k =>
          val (knots (int_of_size_t y.length).toNat)
            (queryPoint (int_of_size_t y.length) size_i k)
            (y.take (int_of_size_t y.length).toNat)
            (set (knots (int_of_size_t y.length).toNat)
              (y.take (int_of_size_t y.length).toNat) 0 0 0 0)) := by
  have halloc : vector_alloc (size_t_of_int size_i) = some (List.replicate size_i.toNat 0) := by
    rw [size_t_of_int_of_nonneg hi0 (int_of_double_range hsi).2]
    have := (int_of_double_range hsi).2
    exact vector_alloc_of_le (by rw [vector_max_size_eq]; omega)
  simp only [cubicSplineRun, hsi, cubicSplineFit_eq, h0, if_true, halloc, evalLoop_run]

/-- A negative `size = (int)y.size()` makes `cubicSpline` throw at `Vector_double x(size)`. -/
theorem cubicSplineRun_of_neg (set : List ℚ → List ℚ → Int → ℚ → Int → ℚ → List ℚ)
    (val : List ℚ → ℚ → List ℚ → List ℚ → ℚ) (y : List ℚ) (oldF newF : ℚ)
    (hneg : int_of_size_t y.length < 0) : cubicSplineRun set val y oldF newF = none := by
  have h0 : ¬ 0 ≤ int_of_size_t y.length := by omega
  unfold cubicSplineRun
  simp only [cubicSplineFit_eq, h0, if_false]
  cases int_of_double (((int_of_size_t y.length : Int) : ℚ) * (newF / oldF)) <;> rfl

/-- For fewer than `2^31` samples and a resampled length below `2^31`, `cubicSpline`
returns a query point and an output for each of `⌊size * newF / oldF⌋` indices. -/
theorem cubicSplineRun_of_fits (set : List ℚ → List ℚ → Int → ℚ → Int → ℚ → List ℚ)
    (val : List ℚ → ℚ → List ℚ → List ℚ → ℚ) (y : List ℚ) (oldF newF : ℚ)
    (hsize : y.length < 2 ^ 31) (hq0 : 0 ≤ (y.length : ℚ) * newF / oldF)
    (hq1 : (y.length : ℚ) * newF / oldF < 2 ^ 31) :
    cubicSplineRun set val y oldF newF =
      some ((List.range ⌊(y.length : ℚ) * newF / oldF⌋.toNat).map
          (queryPoint (y.length : Int) ⌊(y.length : ℚ) * newF / oldF⌋),
        (List.range ⌊(y.length : ℚ) * newF / oldF⌋.toNat).map fun k =>
          val (knots y.length)
            (queryPoint (y.length : Int) ⌊(y.length : ℚ) * newF / oldF⌋ k) y
            (set (knots y.length) y 0 0 0 0)) := by
  have hs : int_of_size_t y.length = (y.length : Int) := int_of_size_t_of_lt hsize
  have hq : (((int_of_size_t y.length : Int) : ℚ) * (newF / oldF)) =
      (y.length : ℚ) * newF / oldF := by
    rw [hs, Int.cast_natCast, mul_div_assoc]
  have hsi := int_of_double_of_nonneg hq0 hq1
  rw [← hq] at hsi
  have h := cubicSplineRun_eq set val y oldF newF _ hsi (by rw [hs]; omega)
    (by rw [hq]; exact Int.floor_nonneg.2 hq0)
  rw [hq, hs, Int.toNat_natCast, List.take_length] at h
  exact h

/-! ## Lemmas on the modelled `spline_cubic_set` -/

theorem splineInterior_length :
    ∀ (t y : List ℚ), t.length = y.length → (splineInterior t y).length = t.length - 2
  | [], _, _ => by simp [splineInterior]
  | [_], _, _ => by simp [splineInterior]
  | [_, _], _, _ => by simp [splineInterior]
  | _ :: _ :: _ :: _, [], h => by simp at h
  | _ :: _ :: _ :: _, [_], h => by simp at h
  | _ :: _ :: _ :: _, [_, _], h => by simp at h
  | _ :: t1 :: t2 :: ts, _ :: y1 :: y2 :: ys, h => by
    have ih := splineInterior_length (t1 :: t2 :: ts) (y1 :: y2 :: ys) (by simpa using h)
    simp only [splineInterior, List.length_cons] at ih ⊢
    omega

theorem thomasForward_length : ∀ (rows : List SplineRow) (p : ℚ × ℚ),
    (thomasForward rows p).length = rows.length
  | [], _ => rfl
  | r :: rs, (cp, dp) => by
    simp only [thomasForward, List.length_cons, thomasForward_length rs]

theorem thomasBack_length : ∀ (l : List (ℚ × ℚ)), (thomasBack l).length = l.length
  | [] => rfl
  | (c, d) :: rest => by
    simp only [thomasBack, List.length_cons, thomasBack_length rest]

/-- The last unknown of the back substitution is the last eliminated right-hand side. -/
theorem thomasBack_getLast? : ∀ (l : List (ℚ × ℚ)),
    (thomasBack l).getLast? = l.getLast?.map Prod.snd
  | [] => rfl
  | [(c, d)] => by simp [thomasBack]
  | (c, d) :: p :: rest => by
    have ih := thomasBack_getLast? (p :: rest)
    obtain ⟨c', d'⟩ := p
    rw [List.getLast?_cons_cons, ← ih]
    simp only [thomasBack, List.getLast?_cons_cons]

/-- A last row `ypp[n-1] = e` survives the forward elimination unchanged. -/
theorem thomasForward_getLast? (e : ℚ) : ∀ (rows : List SplineRow) (p : ℚ × ℚ),
    (thomasForward (rows ++ [{ a := 0, b := 1, c := 0, d := e }]) p).getLast? = some (0, e)
  | [], (cp, dp) => by simp [thomasForward]
  | r :: rs, (cp, dp) => by
    have ih := thomasForward_getLast? e rs
      (r.c / (r.b - r.a * cp), (r.d - r.a * dp) / (r.b - r.a * cp))
    simp only [List.cons_append, thomasForward]
    rw [List.getLast?_cons]
    have happ : rs.append [({ a := 0, b := 1, c := 0, d := e } : SplineRow)] =
        rs ++ [{ a := 0, b := 1, c := 0, d := e }] := rfl
    rw [happ, ih]
    rfl

/-- The modelled `spline_cubic_set` returns one second derivative per knot, `ybcbeg` at
the first knot and (from two knots on) `ybcend` at the last one. -/
theorem spline_cubic_set_ends (t y : List ℚ) (ibcbeg ibcend : Int) (ybcbeg ybcend : ℚ)
    (hlen : t.length = y.length) :
    (spline_cubic_set t y ibcbeg ybcbeg ibcend ybcend).length = t.length ∧
      (1 ≤ t.length → (spline_cubic_set t y ibcbeg ybcbeg ibcend ybcend)[0]? = some ybcbeg) ∧
      (2 ≤ t.length →
        (spline_cubic_set t y ibcbeg ybcbeg ibcend ybcend)[t.length - 1]? = some ybcend) := by
  match t, hlen with
  | [], _ => simp [spline_cubic_set, splineRows, thomasForward, thomasBack]
  | [t0], _ => simp [spline_cubic_set, splineRows, thomasForward, thomasBack]
  | t0 :: t1 :: ts, hlen =>
    have hlen' : (spline_cubic_set (t0 :: t1 :: ts) y ibcbeg ybcbeg ibcend ybcend).length =
        (t0 :: t1 :: ts).length := by
      unfold spline_cubic_set
      rw [thomasBack_length, thomasForward_length]
      simp only [splineRows, List.length_cons, List.length_append, List.length_nil,
        splineInterior_length _ _ hlen]
      omega
    refine ⟨hlen', fun _ => ?_, fun _ => ?_⟩
    · simp [spline_cubic_set, splineRows, thomasForward, thomasBack]
    · rw [← hlen', ← List.getLast?_eq_getElem?]
      unfold spline_cubic_set
      rw [thomasBack_getLast?]
      simp only [splineRows, thomasForward]
      rw [List.getLast?_cons, thomasForward_getLast?]
      rfl

/-- The modelled fit at the samples `0, 1, 8, 27`: the interior second derivatives solve
`4 m1 + m2 = 36`, `m1 + 4 m2 = 72`, the end ones are zero. -/
theorem cubicSplineFit_example :
    cubicSplineFit spline_cubic_set [0, 1, 8, 27] =
      some ([0, 1, 2, 3], [0, 1, 8, 27], [0, 24 / 5, 84 / 5, 0]) := by
  with_unfolding_all rfl

theorem knots_length (m : Nat) : (knots m).length = m := by
  unfold knots
  rw [List.length_map, List.length_range]

/-! ## Lemmas on `Table` -/

/-- The modelled constructor builds a table of the shape `Table.WellFormed` asks for. -/
theorem Table.ctor_wellFormed (nRows nCols : Nat) : (Table.ctor nRows nCols).WellFormed := by
  refine ⟨by simp [Table.ctor], ?_⟩
  intro r hr
  simp only [Table.ctor] at hr ⊢
  rw [List.eq_of_mem_replicate hr]
  simp

/-- In a well-formed table a cell within `nRows() x nCols()` exists in `values`. -/
theorem Table.cell_of_lt (t : Table) (hwf : t.WellFormed) (row col : Nat)
    (hrow : row < t.nRows) (hcol : col < t.nCols) :
    ∃ r c, t.values[row]? = some r ∧ r[col]? = some c := by
  have hr : row < t.values.length := by rw [hwf.1]; exact hrow
  have hc : col < (t.values[row]).length := by
    rw [hwf.2 _ (List.getElem_mem hr)]
    exact hcol
  exact ⟨t.values[row], (t.values[row])[col], List.getElem?_eq_getElem hr,
    List.getElem?_eq_getElem hc⟩

/-- In a well-formed table a cell outside `nRows() x nCols()` does not exist in `values`. -/
theorem Table.no_cell_of_ge (t : Table) (hwf : t.WellFormed) (row col : Nat)
    (h : t.nRows ≤ row ∨ t.nCols ≤ col) :
    t.values[row]? = none ∨ ∃ r, t.values[row]? = some r ∧ r[col]? = none := by
  by_cases hr : row < t.values.length
  · right
    refine ⟨t.values[row], List.getElem?_eq_getElem hr, ?_⟩
    have hrow : ¬ t.nRows ≤ row := by
      unfold Table.nRows
      rw [← hwf.1]
      omega
    have hcol : t.nCols ≤ col := h.resolve_left hrow
    apply List.getElem?_eq_none
    rw [hwf.2 _ (List.getElem_mem hr)]
    exact hcol
  · left
    exact List.getElem?_eq_none (by omega)

/-! ## Further lemmas on `diff` and `cubicSpline` -/

/-- The forward differences of a sequence, each divided by `x`, sum to the total change
divided by `x`. -/
theorem sum_range_forward_diff (a : Nat → ℚ) (x : ℚ) (hx : x ≠ 0) (m : Nat) :
    x * ((List.range m).map fun (k : Nat) => (a (k + 1) - a k) / x).sum = a m - a 0 := by
  induction m with
  | zero => simp
  | succ m ih =>
    rw [List.range_succ, List.map_append, List.sum_append, mul_add, ih]
    simp only [List.map_cons, List.map_nil, List.sum_cons, List.sum_nil, add_zero]
    field_simp

/-- The vector `diff` returns, as one list. -/
theorem diff_returns_eq (input : List ℚ) (x_scale : ℚ) (hn : 1 ≤ input.length)
    (hfit : input.length ≤ 2 ^ 32) :
    ∀ fuel, input.length ≤ fuel → diff fuel input x_scale =
      some ((List.range (input.length - 1)).map fun (k : Nat) =>
        (input.getD (k + 1) 0 - input.getD k 0) / x_scale) := by
  obtain ⟨out, hret, hlen, hout⟩ := diff_returns input x_scale hn hfit
  have heq : out = (List.range (input.length - 1)).map fun (k : Nat) =>
      (input.getD (k + 1) 0 - input.getD k 0) / x_scale := by
    apply List.ext_getElem?
    intro k
    by_cases hk : k < input.length - 1
    · rw [hout k hk, List.getElem?_map, List.getElem?_range hk, Option.map_some']
    · rw [List.getElem?_eq_none (by omega), List.getElem?_eq_none]
      rw [List.length_map, List.length_range]
      omega
  intro fuel hfuel
  rw [hret fuel hfuel, heq]

/-- A run of `cubicSpline` that returns had a non-negative `size` and a non-negative
`size_i`, the latter the truncated `size*factor_i`. -/
theorem cubicSplineRun_some (set : List ℚ → List ℚ → Int → ℚ → Int → ℚ → List ℚ)
    (val : List ℚ → ℚ → List ℚ → List ℚ → ℚ) (y : List ℚ) (oldF newF : ℚ)
    (r : List ℚ × List ℚ) (hrun : cubicSplineRun set val y oldF newF = some r) :
    ∃ size_i : Int,
      int_of_double (((int_of_size_t y.length : Int) : ℚ) * (newF / oldF)) = some size_i ∧
        0 ≤ int_of_size_t y.length ∧ 0 ≤ size_i := by
  by_cases h0 : 0 ≤ int_of_size_t y.length
  · cases hsi : int_of_double (((int_of_size_t y.length : Int) : ℚ) * (newF / oldF)) with
    | none =>
      simp only [cubicSplineRun, hsi] at hrun
      exact absurd hrun (by simp)
    | some size_i =>
      refine ⟨size_i, rfl, h0, ?_⟩
      by_contra hneg
      have halloc : vector_alloc (size_t_of_int size_i) = none :=
        vector_alloc_of_gt
          (size_t_of_int_of_neg (by omega) (int_of_double_range hsi).1)
      simp only [cubicSplineRun, hsi, cubicSplineFit_eq, h0, if_true, halloc] at hrun
      exact absurd hrun (by simp)
  · rw [cubicSplineRun_of_neg set val y oldF newF (by omega)] at hrun
    exact absurd hrun (by simp)

/-- The query points of an upsampling run: each lies below `size`, the last one above
`size - 1`. -/
theorem queryPoint_bounds (size size_i : Int) (hsize : 1 ≤ size) (hup : size < size_i) :
    (∀ n : Nat, (n : Int) < size_i → queryPoint size size_i n < (size : ℚ)) ∧
      (size : ℚ) - 1 < queryPoint size size_i (size_i.toNat - 1) := by
  have hs : (0 : ℚ) < (size : ℚ) := by exact_mod_cast (by omega : (0 : Int) < size)
  have hi : (0 : ℚ) < (size_i : ℚ) := by exact_mod_cast (by omega : (0 : Int) < size_i)
  have hlt : (size : ℚ) < (size_i : ℚ) := by exact_mod_cast hup
  constructor
  · intro n hn
    have hnq : (n : ℚ) < (size_i : ℚ) := by exact_mod_cast hn
    unfold queryPoint
    rw [div_lt_iff₀ hi]
    nlinarith
  · have hcast : ((size_i.toNat - 1 : Nat) : ℚ) = (size_i : ℚ) - 1 := by
      have h1 : 1 ≤ size_i.toNat := by omega
      rw [Nat.cast_sub h1, Nat.cast_one]
      have h2 : ((size_i.toNat : Int) : ℚ) = (size_i : ℚ) := by
        rw [Int.toNat_of_nonneg (by omega)]
      rw [← h2, Int.cast_natCast]
    unfold queryPoint
    rw [hcast, lt_div_iff₀ hi]
    nlinarith

/-! ## Lemmas on the modelled `peakIndices` -/

/-- The scan only appends candidates, in their order, to the peaks accepted so far. -/
theorem acceptPeaks_sublist (minDistance : Int) :
    ∀ (cs accepted : List Nat),
      ∃ picked, picked.Sublist cs ∧ acceptPeaks minDistance cs accepted = accepted ++ picked
  | [], accepted => ⟨[], List.Sublist.refl _, by simp [acceptPeaks]⟩
  | c :: cs, accepted => by
    by_cases h : (accepted.any fun a => withinDistance minDistance a c) = true
    · obtain ⟨picked, hsub, heq⟩ := acceptPeaks_sublist minDistance cs accepted
      refine ⟨picked, hsub.cons c, ?_⟩
      rw [acceptPeaks, if_pos h, heq]
    · obtain ⟨picked, hsub, heq⟩ := acceptPeaks_sublist minDistance cs (accepted ++ [c])
      refine ⟨c :: picked, hsub.cons₂ c, ?_⟩
      rw [acceptPeaks, if_neg h, heq, List.append_assoc, List.singleton_append]

/-- No peak is accepted within `minDistance` samples of a peak accepted before it. -/
theorem acceptPeaks_pairwise (minDistance : Int) :
    ∀ (cs accepted : List Nat),
      accepted.Pairwise (fun a b => withinDistance minDistance a b = false) →
      (acceptPeaks minDistance cs accepted).Pairwise
        (fun a b => withinDistance minDistance a b = false)
  | [], accepted, hacc => by simpa [acceptPeaks] using hacc
  | c :: cs, accepted, hacc => by
    by_cases h : (accepted.any fun a => withinDistance minDistance a c) = true
    · rw [acceptPeaks, if_pos h]
      exact acceptPeaks_pairwise minDistance cs accepted hacc
    · rw [acceptPeaks, if_neg h]
      apply acceptPeaks_pairwise minDistance cs (accepted ++ [c])
      rw [List.pairwise_append]
      refine ⟨hacc, List.pairwise_singleton _ _, ?_⟩
      intro a ha b hb
      rw [List.mem_singleton] at hb
      subst hb
      rw [List.any_eq_true] at h
      by_contra hc
      exact h ⟨a, ha, by simpa using hc⟩

/-- The candidates are increasing indices of samples above the threshold. -/
theorem peakCandidates_spec (data : List ℚ) (threshold : ℚ) :
    (peakCandidates data threshold).Pairwise (· < ·) ∧
      ∀ i ∈ peakCandidates data threshold, ∃ v, data[i]? = some v ∧ threshold < v := by
  constructor
  · exact (List.pairwise_lt_range data.length).sublist (List.filter_sublist _)
  · intro i hi
    unfold peakCandidates at hi
    rw [List.mem_filter, List.mem_range, Bool.and_eq_true, decide_eq_true_eq] at hi
    obtain ⟨hlt, hthr, _⟩ := hi
    refine ⟨data[i], List.getElem?_eq_getElem hlt, ?_⟩
    rw [List.getD_eq_getElem _ _ hlt] at hthr
    exact hthr

/-! ## Claims on `diff` -/

/-- C1, as stated, fails: on an input of `2^32 + 1` elements the `unsigned` counter of
`diff` wraps before it reaches `diffVA.size()`, no vector is returned whatever the fuel,
and so there is no element `0` equal to `(input[1] - input[0]) / x_scale`. -/
theorem diff_forward_difference_counterexample :
    1 ≤ (List.replicate (2 ^ 32 + 1) (0 : ℚ)).length ∧ (1 : ℚ) ≠ 0 ∧
      ¬ ∃ fuel out, diff fuel (List.replicate (2 ^ 32 + 1) 0) 1 = some out ∧
        out[0]? = some ((0 - 0) / 1) := by
  have hlen : (List.replicate (2 ^ 32 + 1) (0 : ℚ)).length = 2 ^ 32 + 1 :=
    List.length_replicate _ _
  refine ⟨by rw [hlen]; omega, one_ne_zero, ?_⟩
  rintro ⟨fuel, out, h, -⟩
  rw [diff_diverges _ 1 (by rw [hlen]; omega) (by rw [hlen]; omega) fuel] at h
  exact absurd h (by simp)

/-- C1 (amended): for every input vector of length `1 ≤ n ≤ 2^32` and every non-zero
`x_scale`, `diff(input, x_scale)` returns a vector (within `n` loop-condition checks)
whose element `k` is `(input[k+1] - input[k]) / x_scale`, for every `k < n - 1`. -/
theorem diff_forward_difference (input : List ℚ) (x_scale : ℚ) (hn : 1 ≤ input.length)
    (hfit : input.length ≤ 2 ^ 32) (hx : x_scale ≠ 0) :
    ∃ out, (∀ fuel, input.length ≤ fuel → diff fuel input x_scale = some out) ∧
      ∀ k (hk : k < input.length - 1),
        out[k]? = some ((input[k + 1] - input[k]) / x_scale) := by
  have _ := hx
  obtain ⟨out, hret, _, hout⟩ := diff_returns input x_scale hn hfit
  refine ⟨out, hret, fun k hk => ?_⟩
  rw [hout k hk]
  have hk1 : k + 1 < input.length := by omega
  have hk0 : k < input.length := by omega
  rw [List.getD_eq_getElem _ _ hk1, List.getD_eq_getElem _ _ hk0]

/-- Witness of C1 (amended) at `input = [1, 3, 6]`, `x_scale = 2`, where `diff` returns
`[1, 3/2]`. -/
theorem diff_forward_difference_witness :
    diff 3 [1, 3, 6] 2 = some [1, 3 / 2] ∧
      ∃ out, (∀ fuel, ([1, 3, 6] : List ℚ).length ≤ fuel → diff fuel [1, 3, 6] 2 = some out) ∧
        ∀ k (hk : k < ([1, 3, 6] : List ℚ).length - 1),
          out[k]? = some ((([1, 3, 6] : List ℚ)[k + 1] - ([1, 3, 6] : List ℚ)[k]) / 2) :=
  ⟨by with_unfolding_all rfl,
    diff_forward_difference [1, 3, 6] 2 (by decide) (by decide) (by norm_num)⟩

/-- C2, as stated, fails: on an input of `2^32 + 1` elements (every length from `2^32 + 1`
up is the same) `diff` returns no vector at all, whatever the fuel, where the claim
promises one of length `2^32`. -/
theorem diff_length_counterexample :
    1 ≤ (List.replicate (2 ^ 32 + 1) (0 : ℚ)).length ∧
      ¬ ∃ fuel out, diff fuel (List.replicate (2 ^ 32 + 1) 0) 1 = some out := by
  have hlen : (List.replicate (2 ^ 32 + 1) (0 : ℚ)).length = 2 ^ 32 + 1 :=
    List.length_replicate _ _
  refine ⟨by rw [hlen]; omega, ?_⟩
  rintro ⟨fuel, out, h⟩
  rw [diff_diverges _ 1 (by rw [hlen]; omega) (by rw [hlen]; omega) fuel] at h
  exact absurd h (by simp)

/-- C2 (amended): for every input vector of length `1 ≤ n ≤ 2^32`, `diff(input, x_scale)`
returns (within `n` loop-condition checks) a vector of length exactly `n - 1`. -/
theorem diff_length (input : List ℚ) (x_scale : ℚ) (hn : 1 ≤ input.length)
    (hfit : input.length ≤ 2 ^ 32) :
    ∃ out, (∀ fuel, input.length ≤ fuel → diff fuel input x_scale = some out) ∧
      out.length = input.length - 1 := by
  obtain ⟨out, hret, hlen, _⟩ := diff_returns input x_scale hn hfit
  exact ⟨out, hret, hlen⟩

/-- Witness of C2 (amended) at the one-element input `[5]`: the result is empty. -/
theorem diff_length_witness :
    diff 1 [5] 3 = some [] ∧
      ∃ out, (∀ fuel, ([5] : List ℚ).length ≤ fuel → diff fuel [5] 3 = some out) ∧
        out.length = ([5] : List ℚ).length - 1 :=
  ⟨by with_unfolding_all rfl, diff_length [5] 3 (by decide) (by decide)⟩

/-! ## Claims on `cubicSpline` -/

/-- C3, as stated, fails: for `2^31` samples resampled from rate `2` to rate `1` the
claimed length `2^31 * 1 / 2 = 2^30` is below `2^31`, but `size = (int)y.size()` is
`-2^31` and `cubicSpline` throws at `Vector_double x(size)` instead of returning. -/
theorem cubicSpline_length_counterexample :
    ((List.replicate (2 ^ 31) (0 : ℚ)).length : ℚ) * 1 / 2 < 2 ^ 31 ∧
      cubicSpline (fun _ _ _ _ _ _ => []) (fun _ _ _ _ => 0)
        (List.replicate (2 ^ 31) 0) 2 1 = none := by
  have hlen : (List.replicate (2 ^ 31) (0 : ℚ)).length = 2 ^ 31 := List.length_replicate _ _
  refine ⟨by rw [hlen]; norm_num, ?_⟩
  unfold cubicSpline
  rw [cubicSplineRun_of_neg _ _ _ _ _ (by rw [hlen]; decide)]
  rfl

/-- C3 (amended): for every input `y` of `size < 2^31` samples and all positive rates
`oldF`, `newF` with `size * newF / oldF` below `2^31`, `cubicSpline(y, oldF, newF)`
returns a vector of length `floor(size * newF / oldF)`. -/
theorem cubicSpline_length (set : List ℚ → List ℚ → Int → ℚ → Int → ℚ → List ℚ)
    (val : List ℚ → ℚ → List ℚ → List ℚ → ℚ) (y : List ℚ) (oldF newF : ℚ)
    (hold : 0 < oldF) (hnew : 0 < newF) (hsize : y.length < 2 ^ 31)
    (hlen : (y.length : ℚ) * newF / oldF < 2 ^ 31) :
    ∃ out, cubicSpline set val y oldF newF = some out ∧
      (out.length : Int) = ⌊(y.length : ℚ) * newF / oldF⌋ := by
  have hq0 : 0 ≤ (y.length : ℚ) * newF / oldF := by positivity
  have hrun := cubicSplineRun_of_fits set val y oldF newF hsize hq0 hlen
  refine ⟨_, congrArg (Option.map Prod.snd) hrun, ?_⟩
  rw [List.length_map, List.length_range]
  exact Int.toNat_of_nonneg (Int.floor_nonneg.2 hq0)

/-- Witness of C3 (amended): four samples resampled from rate `3` to rate `2` give
`⌊4 * 2 / 3⌋ = 2` outputs (here an evaluator that returns its query point). -/
theorem cubicSpline_length_witness :
    cubicSpline spline_cubic_set (fun _ q _ _ => q) [0, 1, 8, 27] 3 2 = some [0, 2] ∧
      ∃ out, cubicSpline spline_cubic_set (fun _ q _ _ => q) [0, 1, 8, 27] 3 2 = some out ∧
        (out.length : Int) = ⌊(([0, 1, 8, 27] : List ℚ).length : ℚ) * 2 / 3⌋ :=
  ⟨by with_unfolding_all rfl,
    cubicSpline_length spline_cubic_set (fun _ q _ _ => q) [0, 1, 8, 27] 3 2
      (by norm_num) (by norm_num) (by decide) (by norm_num)⟩

/-- C5: the spline `cubicSpline` sets up is natural. Whenever lines 556-565 return the
knots `x`, the samples `y_d` and the second derivatives `y_i`, the knots are the
abscissae `0..size-1`, there is one second derivative per knot, and the second
derivative is zero at the first and at the last knot; and for fewer than `2^31` samples
these lines do return, with the knots `0..y.size()-1` and the samples `y`. -/
theorem cubicSpline_natural (y : List ℚ) :
    (∀ x y_d y_i, cubicSplineFit spline_cubic_set y = some (x, y_d, y_i) →
        x = knots x.length ∧ y_i.length = x.length ∧
          (1 ≤ x.length → y_i[0]? = some 0 ∧ y_i[x.length - 1]? = some 0)) ∧
      (y.length < 2 ^ 31 →
        ∃ y_i, cubicSplineFit spline_cubic_set y = some (knots y.length, y, y_i)) := by
  constructor
  · intro x y_d y_i h
    rw [cubicSplineFit_eq] at h
    by_cases h0 : 0 ≤ int_of_size_t y.length
    · rw [if_pos h0] at h
      have hinj := Option.some.inj h
      have hx : knots (int_of_size_t y.length).toNat = x := congrArg Prod.fst hinj
      have hy : y.take (int_of_size_t y.length).toNat = y_d :=
        congrArg (fun p => p.2.1) hinj
      have hi : spline_cubic_set (knots (int_of_size_t y.length).toNat)
          (y.take (int_of_size_t y.length).toNat) 0 0 0 0 = y_i :=
        congrArg (fun p => p.2.2) hinj
      have hxl : x.length = (int_of_size_t y.length).toNat := by rw [← hx, knots_length]
      have hlen : (knots (int_of_size_t y.length).toNat).length =
          (y.take (int_of_size_t y.length).toNat).length := by
        rw [knots_length, List.length_take, Nat.min_eq_left (int_of_size_t_toNat_le h0)]
      obtain ⟨h1, h2, h3⟩ := spline_cubic_set_ends _ _ 0 0 0 0 hlen
      rw [hi, hx] at h1 h2 h3
      refine ⟨by rw [hxl, hx], h1, fun hpos => ⟨h2 hpos, ?_⟩⟩
      by_cases h2le : 2 ≤ x.length
      · exact h3 h2le
      · have hx1 : x.length - 1 = 0 := by omega
        rw [hx1]
        exact h2 hpos
    · rw [if_neg h0] at h
      exact absurd h (by simp)
  · intro hsize
    have hs : int_of_size_t y.length = (y.length : Int) := int_of_size_t_of_lt hsize
    refine ⟨spline_cubic_set (knots y.length) y 0 0 0 0, ?_⟩
    rw [cubicSplineFit_eq, hs, if_pos (by omega), Int.toNat_natCast, List.take_length]

/-! ## Claims on `parInfo` -/

/-- C6 (what the code does at `parInfo("tau", true, true, 0, 1)`): the descriptor's
`constrained` is `false` although `constrained_` is `true`; the other six members hold
their arguments. -/
theorem parInfo_ctor7_drops_constrained :
    (parInfo.ctor7 "tau" true true 0 1).constrained = false ∧
      (parInfo.ctor7 "tau" true true 0 1).desc = "tau" ∧
      (parInfo.ctor7 "tau" true true 0 1).toFit = true ∧
      (parInfo.ctor7 "tau" true true 0 1).constr_lb = 0 ∧
      (parInfo.ctor7 "tau" true true 0 1).constr_ub = 1 ∧
      (parInfo.ctor7 "tau" true true 0 1).scale = noscale ∧
      (parInfo.ctor7 "tau" true true 0 1).unscale = noscale :=
  ⟨rfl, rfl, rfl, rfl, rfl, rfl, rfl⟩

/-- C7: every `parInfo` produced by either constructor, for all arguments, satisfies the
descriptor invariant "if `constrained` is true then `constr_lb ≤ constr_ub`". -/
theorem parInfo_invariant_constructed :
    parInfo.ctor0.invariant ∧
      ∀ (desc_ : String) (toFit_ constrained_ : Bool) (constr_lb_ constr_ub_ : ℚ)
        (scale_ unscale_ : Scale),
        (parInfo.ctor7 desc_ toFit_ constrained_ constr_lb_ constr_ub_
          scale_ unscale_).invariant := by
  constructor
  · intro h
    simp [parInfo.ctor0] at h
  · intro desc_ toFit_ constrained_ constr_lb_ constr_ub_ scale_ unscale_ h
    simp [parInfo.ctor7] at h

/-- C8: a `parInfo` built by the default constructor, or by the other constructor with
the scale arguments omitted, has `scale = unscale = noscale`, and for such a descriptor
`unscale(scale(p, xs, xo, ys, yo), xs, xo, ys, yo) = p` for every `p`, `xs`, `xo`, `ys`,
`yo`. -/
theorem parInfo_default_scale_roundtrip :
    (parInfo.ctor0.scale = noscale ∧ parInfo.ctor0.unscale = noscale ∧
        ∀ p xs xo ys yo : ℚ,
          parInfo.ctor0.unscale (parInfo.ctor0.scale p xs xo ys yo) xs xo ys yo = p) ∧
      ∀ (desc_ : String) (toFit_ constrained_ : Bool) (constr_lb_ constr_ub_ : ℚ),
        (parInfo.ctor7 desc_ toFit_ constrained_ constr_lb_ constr_ub_).scale = noscale ∧
          (parInfo.ctor7 desc_ toFit_ constrained_ constr_lb_ constr_ub_).unscale = noscale ∧
          ∀ p xs xo ys yo : ℚ,
            (parInfo.ctor7 desc_ toFit_ constrained_ constr_lb_ constr_ub_).unscale
              ((parInfo.ctor7 desc_ toFit_ constrained_ constr_lb_ constr_ub_).scale
                p xs xo ys yo) xs xo ys yo = p :=
  ⟨⟨rfl, rfl, fun _ _ _ _ _ => rfl⟩, fun _ _ _ _ _ => ⟨rfl, rfl, fun _ _ _ _ _ => rfl⟩⟩

/-! ## Claims on `Table` -/

/-- C9: for every `Table` state, `nRows()` is the number of row labels and `nCols()` the
number of column labels. -/
theorem Table_dims_match_labels (t : Table) :
    t.nRows = t.rowLabels.length ∧ t.nCols = t.colLabels.length :=
  ⟨rfl, rfl⟩

/-- C10: for every (well-formed) `Table` and every `(row, col)`: when `row < nRows()` and
`col < nCols()`, writing `v` through `at(row, col)` succeeds and reading `at(row, col)`
right after returns `v`; when `row >= nRows()` or `col >= nCols()`, both the const and
the reference accessor fail with `std::out_of_range`. -/
theorem Table_at_roundtrip (t : Table) (hwf : t.WellFormed) (row col : Nat) :
    (row < t.nRows → col < t.nCols →
        ∀ v, ∃ t', t.at_assign row col v = .ok t' ∧ t'.at row col = .ok v) ∧
      (t.nRows ≤ row ∨ t.nCols ≤ col →
        t.at row col = .error .out_of_range ∧
          ∀ v, t.at_assign row col v = .error .out_of_range) := by
  constructor
  · intro hrow hcol v
    obtain ⟨r, c, hr, hc⟩ := t.cell_of_lt hwf row col hrow hcol
    have hrl : row < t.values.length := by
      by_contra hge
      rw [List.getElem?_eq_none (by omega)] at hr
      exact absurd hr (by simp)
    have hcl : col < r.length := by
      by_contra hge
      rw [List.getElem?_eq_none (by omega)] at hc
      exact absurd hc (by simp)
    refine ⟨{ t with values := t.values.set row (r.set col v) }, ?_, ?_⟩
    · simp only [Table.at_assign, hr, hc]
    · simp only [Table.at, List.getElem?_set, hrl, hcl, if_true]
  · intro h
    rcases t.no_cell_of_ge hwf row col h with hr | ⟨r, hr, hc⟩
    · exact ⟨by simp only [Table.at, hr], fun v => by simp only [Table.at_assign, hr]⟩
    · exact ⟨by simp only [Table.at, hr, hc], fun v => by simp only [Table.at_assign, hr, hc]⟩

/-- Witness of C10 on the table `Table(2, 3)`: the cell `(1, 2)` round-trips, the
accessors fail at `(2, 0)`. -/
theorem Table_at_roundtrip_witness :
    (Table.ctor 2 3).WellFormed ∧
      (∀ v, ∃ t', (Table.ctor 2 3).at_assign 1 2 v = .ok t' ∧ t'.at 1 2 = .ok v) ∧
      (Table.ctor 2 3).at 2 0 = .error .out_of_range ∧
      ∀ v, (Table.ctor 2 3).at_assign 2 0 v = .error .out_of_range :=
  ⟨Table.ctor_wellFormed 2 3,
    (Table_at_roundtrip (Table.ctor 2 3) (Table.ctor_wellFormed 2 3) 1 2).1
      (by decide) (by decide),
    (Table_at_roundtrip (Table.ctor 2 3) (Table.ctor_wellFormed 2 3) 2 0).2
      (Or.inl (by decide))⟩

/-! ## Further claims on `cubicSpline` and `diff` -/

/-- C15, as stated, fails: on an input of `2^32 + 1` elements `diff` returns no vector,
whatever the fuel, so there is no sum that `x_scale` times equals
`input[n-1] - input[0]`. -/
theorem diff_sum_telescopes_counterexample :
    1 ≤ (List.replicate (2 ^ 32 + 1) (5 : ℚ)).length ∧ (2 : ℚ) ≠ 0 ∧
      ¬ ∃ fuel out, diff fuel (List.replicate (2 ^ 32 + 1) 5) 2 = some out ∧
        2 * out.sum = 5 - 5 := by
  have hlen : (List.replicate (2 ^ 32 + 1) (5 : ℚ)).length = 2 ^ 32 + 1 :=
    List.length_replicate _ _
  refine ⟨by rw [hlen]; omega, two_ne_zero, ?_⟩
  rintro ⟨fuel, out, h, -⟩
  rw [diff_diverges _ 2 (by rw [hlen]; omega) (by rw [hlen]; omega) fuel] at h
  exact absurd h (by simp)

/-- C15 (amended): for every input of length `1 ≤ n ≤ 2^32` and every non-zero
`x_scale`, `diff(input, x_scale)` returns a vector (within `n` loop-condition checks)
and `x_scale` times the sum of all its elements is `input[n-1] - input[0]`. -/
theorem diff_sum_telescopes (input : List ℚ) (x_scale : ℚ) (hn : 1 ≤ input.length)
    (hfit : input.length ≤ 2 ^ 32) (hx : x_scale ≠ 0) :
    ∃ out, (∀ fuel, input.length ≤ fuel → diff fuel input x_scale = some out) ∧
      x_scale * out.sum = input[input.length - 1] - input[0] := by
  refine ⟨_, diff_returns_eq input x_scale hn hfit, ?_⟩
  rw [sum_range_forward_diff (fun k => input.getD k 0) x_scale hx (input.length - 1)]
  show input.getD (input.length - 1) 0 - input.getD 0 0 = _
  rw [List.getD_eq_getElem _ _ (by omega : input.length - 1 < input.length),
    List.getD_eq_getElem _ _ (by omega : 0 < input.length)]

/-- Witness of C15 (amended) at `input = [1, 3, 6]`, `x_scale = 2`:
`2 * (1 + 3/2) = 6 - 1`. -/
theorem diff_sum_telescopes_witness :
    diff 3 [1, 3, 6] 2 = some [1, 3 / 2] ∧
      ∃ out, (∀ fuel, ([1, 3, 6] : List ℚ).length ≤ fuel → diff fuel [1, 3, 6] 2 = some out) ∧
        2 * out.sum = 6 - 1 :=
  ⟨by with_unfolding_all rfl,
    diff_sum_telescopes [1, 3, 6] 2 (by decide) (by decide) (by norm_num)⟩

/-- C16: for the empty input vector, `diff` computes the result length `input.size()-1` in
`std::size_t` arithmetic, which is `2^64 - 1` and not `0`; `diff` does not return an
empty vector (it returns none at all: the allocation of `2^64 - 1` elements throws). -/
theorem diff_empty_input :
    diff_size [] = 2 ^ 64 - 1 ∧ diff_size [] ≠ 0 ∧
      ∀ (fuel : Nat) (x_scale : ℚ),
        diff fuel [] x_scale ≠ some [] ∧ diff fuel [] x_scale = none := by
  have hsize : diff_size [] = 2 ^ 64 - 1 := by
    unfold diff_size
    rw [SIZE_MOD_eq]
    rfl
  have hnone : ∀ (fuel : Nat) (x_scale : ℚ), diff fuel [] x_scale = none := by
    intro fuel x_scale
    unfold diff
    rewrite [hsize, vector_alloc_of_gt (by rw [vector_max_size_eq]; omega)]
    rfl
  refine ⟨hsize, by rw [hsize]; omega, fun fuel x_scale => ⟨?_, hnone fuel x_scale⟩⟩
  rw [hnone fuel x_scale]
  simp

/-! ## Claims on `storedFunc` -/

/-- C17: the `storedFunc` constructor stores `name_`, `pInfo_`, `func_`, `init_`, `jac_`,
`hasJac_` and `output_` in the members of the same names; with `hasJac_` omitted
`hasJac` is true whatever `jac_` is, the placeholder `nojac` included, and with
`output_` omitted `output` is `defaultOutput`. -/
theorem storedFunc_ctor_fields (defaultOutput : Output) (nojac : Jac) (name_ : String)
    (pInfo_ : List parInfo) (func_ : Func) (init_ : Init) (jac_ : Jac) (hasJac_ : Bool)
    (output_ : Output) :
    ((storedFunc.ctor defaultOutput name_ pInfo_ func_ init_ jac_ hasJac_ output_).name = name_ ∧
        (storedFunc.ctor defaultOutput name_ pInfo_ func_ init_ jac_ hasJac_ output_).pInfo =
          pInfo_ ∧
        (storedFunc.ctor defaultOutput name_ pInfo_ func_ init_ jac_ hasJac_ output_).func =
          func_ ∧
        (storedFunc.ctor defaultOutput name_ pInfo_ func_ init_ jac_ hasJac_ output_).init =
          init_ ∧
        (storedFunc.ctor defaultOutput name_ pInfo_ func_ init_ jac_ hasJac_ output_).jac = jac_ ∧
        (storedFunc.ctor defaultOutput name_ pInfo_ func_ init_ jac_ hasJac_ output_).hasJac =
          hasJac_ ∧
        (storedFunc.ctor defaultOutput name_ pInfo_ func_ init_ jac_ hasJac_ output_).output =
          output_) ∧
      (storedFunc.ctor defaultOutput name_ pInfo_ func_ init_ jac_).hasJac = true ∧
      (storedFunc.ctor defaultOutput name_ pInfo_ func_ init_ nojac).hasJac = true ∧
      (storedFunc.ctor defaultOutput name_ pInfo_ func_ init_ nojac).jac = nojac ∧
      (storedFunc.ctor defaultOutput name_ pInfo_ func_ init_ jac_).output = defaultOutput ∧
      (storedFunc.ctor defaultOutput name_ pInfo_ func_ init_ jac_ hasJac_).output =
        defaultOutput :=
  ⟨⟨rfl, rfl, rfl, rfl, rfl, rfl, rfl⟩, rfl, rfl, rfl, rfl, rfl⟩

/-! ## Claims on `peakIndices` -/

/-- C11: for every data vector, threshold and `minDistance`, `peakIndices` returns strictly
increasing indices, each of a sample above `threshold`, and no returned index lies within
`minDistance` samples of an earlier returned one; unit impulses at the indices 10 and 12
give `[10]` for `minDistance = 5` (the earlier peak is kept) and `[10, 12]` for
`minDistance = 1`. -/
theorem peakIndices_spec (data : List ℚ) (threshold : ℚ) (minDistance : Int) :
    (peakIndices data threshold minDistance).Pairwise (· < ·) ∧
      (∀ p ∈ peakIndices data threshold minDistance,
        ∃ (i : Nat) (v : ℚ), p = (i : Int) ∧ data[i]? = some v ∧ threshold < v) ∧
      (peakIndices data threshold minDistance).Pairwise (fun a b => minDistance < |b - a|) ∧
      peakIndices (twoImpulses 20) (1 / 2) 5 = [10] ∧
      peakIndices (twoImpulses 20) (1 / 2) 1 = [10, 12] ∧
      peakIndices (twoImpulses 13) (1 / 2) 5 = [10] ∧
      peakIndices (twoImpulses 13) (1 / 2) 1 = [10, 12] := by
  obtain ⟨picked, hsub, heq⟩ :=
    acceptPeaks_sublist minDistance (peakCandidates data threshold) []
  rw [List.nil_append] at heq
  obtain ⟨hsorted, habove⟩ := peakCandidates_spec data threshold
  have hfar := acceptPeaks_pairwise minDistance (peakCandidates data threshold) []
    List.Pairwise.nil
  refine ⟨?_, ?_, ?_, by with_unfolding_all rfl, by with_unfolding_all rfl,
    by with_unfolding_all rfl, by with_unfolding_all rfl⟩
  · unfold peakIndices
    rw [heq, List.pairwise_map]
    exact (hsorted.sublist hsub).imp (fun h => by exact_mod_cast h)
  · intro p hp
    unfold peakIndices at hp
    rw [heq, List.mem_map] at hp
    obtain ⟨i, hi, rfl⟩ := hp
    obtain ⟨v, hv, hthr⟩ := habove i (hsub.subset hi)
    exact ⟨i, v, rfl, hv, hthr⟩
  · unfold peakIndices
    rw [List.pairwise_map]
    refine hfar.imp ?_
    intro a b h
    unfold withinDistance at h
    rw [decide_eq_false_iff_not, not_le] at h
    exact h

end stfnum

/-! ## Claims on `SWAP` -/

/-- C13 (what the code does at `x = 1`, `y = 2`): after the call `SWAP(x, y)` the
caller's `x` is still `1` and its `y` still `2`; they are not swapped. The same holds
for all values. -/
theorem SWAP_leaves_arguments :
    SWAP (1 : Int) 2 = (1, 2) ∧ SWAP (1 : Int) 2 ≠ (2, 1) ∧
      ∀ (a b : Int), SWAP a b = (a, b) :=
  ⟨rfl, by decide, fun _ _ => rfl⟩

/-! ## Lemmas on `wxStfOrderChannelsDlg` -/

/-- Exchanging two entries of a list, the way `SwapItems` does, permutes the list. -/
theorem swap_entries_perm {α : Type} [DecidableEq α] (l : List α) (i j : Nat)
    (hi : i < l.length) (hj : j < l.length) :
    ((l.set i l[j]).set j (l[i])).Perm l := by
  rw [List.perm_iff_count]
  intro b
  have hj' : j < (l.set i l[j]).length := by rw [List.length_set]; exact hj
  have hget : (l.set i l[j])[j] = l[j] := by
    rw [List.getElem_set]
    split
    · rfl
    · rfl
  rw [List.count_set _ _ _ _ hj', List.count_set _ _ _ _ hi, hget]
  have hle : (if (l[i] == b) = true then 1 else 0) ≤ l.count b := by
    split
    · rename_i h
      have hb : l[i] = b := by simpa using h
      have hmem : b ∈ l := hb ▸ List.getElem_mem hi
      exact List.count_pos_iff.2 hmem
    · exact Nat.zero_le _
  omega

/-- The entries of a list after two of them were exchanged. -/
theorem swap_entries_getElem? {α : Type} (l : List α) (i j : Nat)
    (hi : i < l.length) (hj : j < l.length) (k : Nat) :
    ((l.set i l[j]).set j (l[i]))[k]? =
      if k = j then some l[i] else if k = i then some l[j] else l[k]? := by
  rw [List.getElem?_set, List.getElem?_set, List.length_set]
  by_cases hkj : j = k
  · subst hkj
    simp [hj]
  · have hkj' : ¬ k = j := fun h => hkj h.symm
    rw [if_neg hkj, if_neg hkj']
    by_cases hki : i = k
    · subst hki
      simp [hi]
    · have hki' : ¬ k = i := fun h => hki h.symm
      rw [if_neg hki, if_neg hki']

/-- An index below `2^31` is stored unchanged by the narrowing to `int`. -/
theorem int_of_long_of_lt (k : Nat) (h : k < 2 ^ 31) : int_of_long (k : Int) = (k : Int) := by
  have h0 : (0 : Int) ≤ (k : Int) := Int.natCast_nonneg k
  have h1 : (k : Int) < 2 ^ 32 := by
    have : (k : Int) < 2 ^ 31 := by exact_mod_cast h
    exact lt_trans this (by norm_num)
  have e : (k : Int) % 2 ^ 32 = (k : Int) := Int.emod_eq_of_lt h0 h1
  unfold int_of_long
  rw [e, if_pos (by exact_mod_cast h)]

/-- The index `2^31` is stored as `-2^31`. -/
theorem int_of_long_two_pow_31 : int_of_long ((2147483648 : Nat) : Int) = -2147483648 := by
  decide

/-- Up to `2^31` channels the constructor's entries are the indices themselves. -/
theorem narrowed_range (n : Nat) (h : n ≤ 2 ^ 31) :
    ((List.range n).map fun (k : Nat) => int_of_long (k : Int)) =
      (List.range n).map fun (k : Nat) => (k : Int) := by
  apply List.map_congr_left
  intro k hk
  have := List.mem_range.mp hk
  exact int_of_long_of_lt k (by omega)

namespace wxStfOrderChannelsDlg

/-- The member `SwapItems` in closed form, for two items of the list: the two labels
are exchanged, the two entries of `channelOrder` are exchanged, the selection stays. -/
theorem SwapItems_eq (s : wxStfOrderChannelsDlg) (i j : Nat)
    (hi : i < s.m_List.items.length) (hj : j < s.m_List.items.length)
    (hci : i < s.channelOrder.length) (hcj : j < s.channelOrder.length) :
    s.SwapItems (i : Int) (j : Int) =
      some { m_List := { items := (s.m_List.items.set i s.m_List.items[j]).set j
                          (s.m_List.items[i]),
                         selected := s.m_List.selected },
             channelOrder := (s.channelOrder.set i s.channelOrder[j]).set j
                          (s.channelOrder[i]) } := by
  simp [SwapItems, wxListCtrl.GetItemText, wxListCtrl.SetItemText, orderGet, orderSet,
    hi, hj, hci, hcj, List.getElem?_eq_getElem]

/-- Loop invariant of the constructor's loop: run from `n_c`, it appends the labels
`channelNames[n_c..]` to the list and writes `k`, narrowed to `int`, at every entry
`k ≥ n_c` of `channelOrder`. -/
theorem ctorLoop_spec (channelNames : List String) :
    ∀ (todo n_c : Nat) (s : wxStfOrderChannelsDlg),
      n_c + todo = channelNames.length → s.channelOrder.length = channelNames.length →
      s.m_List.items.length = n_c →
      ∃ s', ctorLoop channelNames todo n_c s = some s' ∧
        s'.m_List.selected = s.m_List.selected ∧
        s'.m_List.items = s.m_List.items ++ channelNames.drop n_c ∧
        ∀ k, s'.channelOrder[k]? =
          if n_c ≤ k ∧ k < channelNames.length then some (int_of_long (k : Int))
          else s.channelOrder[k]? := by
  intro todo
  induction todo with
  | zero =>
    intro n_c s hn hco hitems
    refine ⟨s, rfl, rfl, ?_, fun k => ?_⟩
    · rw [List.drop_eq_nil_of_le (by omega), List.append_nil]
    · have h1 : ¬ (n_c ≤ k ∧ k < channelNames.length) := by omega
      rw [if_neg h1]
  | succ todo ih =>
    intro n_c s hn hco hitems
    have hlt : n_c < channelNames.length := by omega
    have hset : orderSet s.channelOrder (n_c : Int) (int_of_long (n_c : Int)) =
        some (s.channelOrder.set n_c (int_of_long (n_c : Int))) := by
      simp [orderSet, hco, hlt]
    have hins : List.insertIdx n_c channelNames[n_c] s.m_List.items =
        s.m_List.items ++ [channelNames[n_c]] := by
      have h := List.insertIdx_length_self s.m_List.items channelNames[n_c]
      rw [hitems] at h
      exact h
    obtain ⟨s', hrun, hsel, hitems', hord⟩ :=
      ih (n_c + 1)
        { m_List := s.m_List.InsertItem (n_c : Int) channelNames[n_c],
          channelOrder := s.channelOrder.set n_c (int_of_long (n_c : Int)) }
        (by omega) (by simp only [List.length_set]; exact hco)
        (by
          simp only [wxListCtrl.InsertItem, Int.toNat_natCast]
          rw [hins, List.length_append, hitems]
          rfl)
    refine ⟨s', ?_, ?_, ?_, fun k => ?_⟩
    · rw [ctorLoop]
      simp only [List.getElem?_eq_getElem hlt, hset]
      exact hrun
    · rw [hsel]
      rfl
    · rw [hitems']
      simp only [wxListCtrl.InsertItem, Int.toNat_natCast]
      rw [hins, List.append_assoc, List.singleton_append, ← List.drop_eq_getElem_cons hlt]
    · rw [hord k]
      simp only [List.getElem?_set]
      by_cases hk : n_c + 1 ≤ k
      · have h1 : n_c ≤ k := by omega
        by_cases hkn : k < channelNames.length
        · simp [hk, h1, hkn]
        · have hne : n_c ≠ k := by omega
          simp [hkn, hne]
      · by_cases hkeq : n_c = k
        · subst hkeq
          simp [hco, hlt]
        · have h1 : ¬ n_c ≤ k := by omega
          simp [hk, h1, hkeq]

/-- The constructor in closed form: the labels are the channel names in their order,
nothing is selected, and `channelOrder` holds `0, ..., n-1`, each narrowed to `int`. -/
theorem ctor_eq (channelNames : List String) :
    ctor channelNames =
      some { m_List := { items := channelNames, selected := none },
             channelOrder :=
               (List.range channelNames.length).map fun (k : Nat) => int_of_long (k : Int) } := by
  obtain ⟨s', hrun, hsel, hitems, hord⟩ :=
    ctorLoop_spec channelNames channelNames.length 0
      { m_List := { items := [], selected := none },
        channelOrder := List.replicate channelNames.length 0 }
      (by omega) (by simp) rfl
  have hco : s'.channelOrder =
      (List.range channelNames.length).map fun (k : Nat) => int_of_long (k : Int) := by
    apply List.ext_getElem?
    intro k
    rw [hord k]
    by_cases hk : k < channelNames.length
    · simp only [Nat.zero_le, true_and, hk, if_true, List.getElem?_map,
        List.getElem?_range hk, Option.map_some']
    · simp only [Nat.zero_le, true_and, hk, if_false, List.getElem?_replicate,
        List.getElem?_map, List.getElem?_eq_none (l := List.range channelNames.length)
          (by simpa using hk), Option.map_none']
  unfold ctor
  rw [hrun]
  simp only [List.nil_append, List.drop_zero] at hitems
  obtain ⟨⟨items, selected⟩, order⟩ := s'
  simp only at hsel hitems hco
  rw [hsel, hitems, hco]

/-- The state after construction, entry by entry: the labels are the channel names and
entry `k` of `channelOrder` is `k` narrowed to `int`. -/
theorem ctor_entries (channelNames : List String) :
    ∃ s₀, ctor channelNames = some s₀ ∧ s₀.m_List.items = channelNames ∧
      ∀ k, k < channelNames.length → s₀.channelOrder[k]? = some (int_of_long (k : Int)) := by
  refine ⟨_, ctor_eq channelNames, rfl, fun k hk => ?_⟩
  show ((List.range channelNames.length).map fun (k : Nat) => int_of_long (k : Int))[k]? = _
  rw [List.getElem?_map, List.getElem?_range hk, Option.map_some']

theorem OnUparrow_none (s : wxStfOrderChannelsDlg) (h : s.m_List.selected = none) :
    s.OnUparrow = some s := by
  simp [OnUparrow, wxListCtrl.GetSelectedItemCount, h]

theorem OnUparrow_zero (s : wxStfOrderChannelsDlg) (h : s.m_List.selected = some 0) :
    s.OnUparrow = some s := by
  simp [OnUparrow, wxListCtrl.GetSelectedItemCount, wxListCtrl.GetNextItem, h]

/-- With the item at position `i + 1` selected, `OnUparrow` is the call
`SwapItems(i, i + 1)`. -/
theorem OnUparrow_succ (s : wxStfOrderChannelsDlg) (i : Nat)
    (h : s.m_List.selected = some (i + 1)) :
    s.OnUparrow = s.SwapItems (i : Int) ((i + 1 : Nat) : Int) := by
  have h1 : (-1 : Int) < ((i + 1 : Nat) : Int) := by omega
  have h2 : ¬ ((i + 1 : Nat) : Int) ≤ 0 := by omega
  have h3 : ((i + 1 : Nat) : Int) - 1 = (i : Int) := by omega
  simp only [OnUparrow, wxListCtrl.GetSelectedItemCount, wxListCtrl.GetNextItem, h, h1, h2,
    h3, if_true, if_false, gt_iff_lt, Int.zero_lt_one]

theorem OnDownarrow_none (s : wxStfOrderChannelsDlg) (h : s.m_List.selected = none) :
    s.OnDownarrow = some s := by
  simp [OnDownarrow, wxListCtrl.GetSelectedItemCount, h]

/-- With the last item selected (or one beyond the list), `OnDownarrow` returns early. -/
theorem OnDownarrow_last (s : wxStfOrderChannelsDlg) (i : Nat)
    (h : s.m_List.selected = some i) (hl : s.m_List.items.length ≤ i + 1) :
    s.OnDownarrow = some s := by
  have h1 : (-1 : Int) < (i : Int) := by omega
  have h2 : (i : Int) ≥ (s.m_List.items.length : Int) - 1 := by omega
  simp only [OnDownarrow, wxListCtrl.GetSelectedItemCount, wxListCtrl.GetNextItem,
    wxListCtrl.GetItemCount, h, h1, h2, if_true, gt_iff_lt, Int.zero_lt_one]

/-- With the item at position `i` selected and an item below it, `OnDownarrow` is the
call `SwapItems(i, i + 1)`. -/
theorem OnDownarrow_lt (s : wxStfOrderChannelsDlg) (i : Nat)
    (h : s.m_List.selected = some i) (hl : i + 1 < s.m_List.items.length) :
    s.OnDownarrow = s.SwapItems (i : Int) ((i + 1 : Nat) : Int) := by
  have h1 : (-1 : Int) < (i : Int) := by omega
  have h2 : ¬ (i : Int) ≥ (s.m_List.items.length : Int) - 1 := by omega
  have h3 : (i : Int) + 1 = ((i + 1 : Nat) : Int) := by omega
  simp only [OnDownarrow, wxListCtrl.GetSelectedItemCount, wxListCtrl.GetNextItem,
    wxListCtrl.GetItemCount, h, h1, h2, h3, if_true, if_false, gt_iff_lt, Int.zero_lt_one]

/-- What `SwapItems(i, j)` keeps, for two items of the list: the shape of the state,
that `channelOrder` is a permutation of the entries the constructor stored (`0, ..., n-1`,
each narrowed to `int`), and that the label at every position is the name of the channel
whose entry `channelOrder` holds there. -/
theorem SwapItems_inv (channelNames : List String) (s s' : wxStfOrderChannelsDlg)
    (i j : Nat) (hi : i < channelNames.length) (hj : j < channelNames.length)
    (hwf : s.WellFormed channelNames.length)
    (hperm : s.channelOrder.Perm
      ((List.range channelNames.length).map fun (k : Nat) => int_of_long (k : Int)))
    (hlab : ∀ p, p < channelNames.length → ∃ k : Nat, k < channelNames.length ∧
      s.channelOrder[p]? = some (int_of_long (k : Int)) ∧ s.m_List.items[p]? = channelNames[k]?)
    (hswap : s.SwapItems (i : Int) (j : Int) = some s') :
    s'.WellFormed channelNames.length ∧
      s'.channelOrder.Perm ((List.range channelNames.length).map fun (k : Nat) => int_of_long (k : Int)) ∧
      ∀ p, p < channelNames.length → ∃ k : Nat, k < channelNames.length ∧
        s'.channelOrder[p]? = some (int_of_long (k : Int)) ∧ s'.m_List.items[p]? = channelNames[k]? := by
  obtain ⟨hil, hcl, hsel⟩ := hwf
  have hi1 : i < s.m_List.items.length := by omega
  have hj1 : j < s.m_List.items.length := by omega
  have hi2 : i < s.channelOrder.length := by omega
  have hj2 : j < s.channelOrder.length := by omega
  rw [SwapItems_eq s i j hi1 hj1 hi2 hj2] at hswap
  have hs := Option.some.inj hswap
  subst hs
  refine ⟨⟨?_, ?_, hsel⟩, ?_, ?_⟩
  · simp only [List.length_set]
    exact hil
  · simp only [List.length_set]
    exact hcl
  · exact (swap_entries_perm _ i j hi2 hj2).trans hperm
  · intro p hp
    simp only [swap_entries_getElem? _ i j hi2 hj2, swap_entries_getElem? _ i j hi1 hj1]
    by_cases hpj : p = j
    · obtain ⟨k, hk, hco, hit⟩ := hlab i hi
      refine ⟨k, hk, ?_, ?_⟩
      · rw [if_pos hpj, ← List.getElem?_eq_getElem hi2, hco]
      · rw [if_pos hpj, ← List.getElem?_eq_getElem hi1, hit]
    · by_cases hpi : p = i
      · obtain ⟨k, hk, hco, hit⟩ := hlab j hj
        refine ⟨k, hk, ?_, ?_⟩
        · rw [if_neg hpj, if_pos hpi, ← List.getElem?_eq_getElem hj2, hco]
        · rw [if_neg hpj, if_pos hpi, ← List.getElem?_eq_getElem hj1, hit]
      · obtain ⟨k, hk, hco, hit⟩ := hlab p hp
        refine ⟨k, hk, ?_, ?_⟩
        · rw [if_neg hpj, if_neg hpi, hco]
        · rw [if_neg hpj, if_neg hpi, hit]

/-- The invariant of the dialog: every reachable state has the shape `WellFormed`, its
`channelOrder` is a permutation of the entries the constructor stored (`0, ..., n-1`,
each narrowed to `int`), and the label at every position `p` is `channelNames[k]` for the
`k` whose narrowed value `channelOrder[p]` holds. -/
theorem reachable_inv (channelNames : List String) (s : wxStfOrderChannelsDlg)
    (h : Reachable channelNames s) :
    s.WellFormed channelNames.length ∧
      s.channelOrder.Perm ((List.range channelNames.length).map fun (k : Nat) => int_of_long (k : Int)) ∧
      ∀ p, p < channelNames.length → ∃ k : Nat, k < channelNames.length ∧
        s.channelOrder[p]? = some (int_of_long (k : Int)) ∧ s.m_List.items[p]? = channelNames[k]? := by
  induction h with
  | init s hinit =>
    rw [ctor_eq] at hinit
    have hs := Option.some.inj hinit
    subst hs
    refine ⟨⟨rfl, by simp, fun i hi => by simp at hi⟩, List.Perm.refl _, ?_⟩
    intro p hp
    refine ⟨p, hp, ?_, rfl⟩
    simp only [List.getElem?_map, List.getElem?_range hp, Option.map_some']
  | select s sel _ hsel ih =>
    obtain ⟨⟨hil, hcl, _⟩, hperm, hlab⟩ := ih
    exact ⟨⟨hil, hcl, hsel⟩, hperm, hlab⟩
  | up s s' _ hup ih =>
    obtain ⟨hwf, hperm, hlab⟩ := ih
    cases hs : s.m_List.selected with
    | none =>
      rw [OnUparrow_none s hs] at hup
      rw [← Option.some.inj hup]
      exact ⟨hwf, hperm, hlab⟩
    | some i =>
      cases i with
      | zero =>
        rw [OnUparrow_zero s hs] at hup
        rw [← Option.some.inj hup]
        exact ⟨hwf, hperm, hlab⟩
      | succ i =>
        rw [OnUparrow_succ s i hs] at hup
        have hlt := hwf.2.2 _ hs
        exact SwapItems_inv channelNames s s' i (i + 1) (by omega) hlt hwf hperm hlab hup
  | down s s' _ hdown ih =>
    obtain ⟨hwf, hperm, hlab⟩ := ih
    cases hs : s.m_List.selected with
    | none =>
      rw [OnDownarrow_none s hs] at hdown
      rw [← Option.some.inj hdown]
      exact ⟨hwf, hperm, hlab⟩
    | some i =>
      by_cases hl : i + 1 < s.m_List.items.length
      · rw [OnDownarrow_lt s i hs hl] at hdown
        have hn := hwf.1
        exact SwapItems_inv channelNames s s' i (i + 1) (by omega) (by omega) hwf hperm hlab
          hdown
      · rw [OnDownarrow_last s i hs (by omega)] at hdown
        rw [← Option.some.inj hdown]
        exact ⟨hwf, hperm, hlab⟩
  | swap s s' i j _ hi hj hswap ih =>
    obtain ⟨hwf, hperm, hlab⟩ := ih
    exact SwapItems_inv channelNames s s' i j hi hj hwf hperm hlab hswap

/-- The entries of `channelOrder` after `SwapItems(i, j)` on a well-formed state. -/
theorem SwapItems_channelOrder (n : Nat) (s : wxStfOrderChannelsDlg) (hwf : s.WellFormed n)
    (i j : Nat) (hi : i < n) (hj : j < n) :
    ∃ s', s.SwapItems (i : Int) (j : Int) = some s' ∧
      s'.channelOrder[i]? = s.channelOrder[j]? ∧ s'.channelOrder[j]? = s.channelOrder[i]? ∧
      ∀ k, k ≠ i → k ≠ j → s'.channelOrder[k]? = s.channelOrder[k]? := by
  obtain ⟨hil, hcl, _⟩ := hwf
  have hi1 : i < s.m_List.items.length := by omega
  have hj1 : j < s.m_List.items.length := by omega
  have hi2 : i < s.channelOrder.length := by omega
  have hj2 : j < s.channelOrder.length := by omega
  refine ⟨_, SwapItems_eq s i j hi1 hj1 hi2 hj2, ?_, ?_, fun k hki hkj => ?_⟩
  · by_cases hij : i = j
    · subst hij
      simp [List.getElem?_set, hi2, List.getElem?_eq_getElem hi2]
    · simp [swap_entries_getElem? _ i j hi2 hj2, hij, List.getElem?_eq_getElem hj2]
  · simp [swap_entries_getElem? _ i j hi2 hj2, List.getElem?_eq_getElem hi2]
  · simp [swap_entries_getElem? _ i j hi2 hj2, hkj, hki]

/-! ## Claims on `wxStfOrderChannelsDlg` -/

/-- C20: on a state over `n` channels, `OnUparrow` with the item at position `i > 0`
selected is the call `SwapItems(i-1, i)`, with both indices in `[0, n)`: afterwards
`channelOrder[i-1]` and `channelOrder[i]` hold each other's former values and every
other entry is unchanged; with the topmost item or nothing selected the state is
unchanged. `OnDownarrow` does the same with the positions `i` and `i+1` when `i < n-1`,
and leaves the state unchanged when the last item or nothing is selected. -/
theorem arrows_swap_neighbours (n : Nat) (s : wxStfOrderChannelsDlg)
    (hwf : s.WellFormed n) :
    (∀ i, s.m_List.selected = some i → 0 < i →
        i - 1 < n ∧ i < n ∧ s.OnUparrow = s.SwapItems ((i - 1 : Nat) : Int) (i : Int) ∧
          ∃ s', s.OnUparrow = some s' ∧
            s'.channelOrder[i - 1]? = s.channelOrder[i]? ∧
            s'.channelOrder[i]? = s.channelOrder[i - 1]? ∧
            ∀ k, k ≠ i - 1 → k ≠ i → s'.channelOrder[k]? = s.channelOrder[k]?) ∧
      (s.m_List.selected = some 0 ∨ s.m_List.selected = none → s.OnUparrow = some s) ∧
      (∀ i, s.m_List.selected = some i → i + 1 < n →
        i < n ∧ i + 1 < n ∧ s.OnDownarrow = s.SwapItems (i : Int) ((i + 1 : Nat) : Int) ∧
          ∃ s', s.OnDownarrow = some s' ∧
            s'.channelOrder[i]? = s.channelOrder[i + 1]? ∧
            s'.channelOrder[i + 1]? = s.channelOrder[i]? ∧
            ∀ k, k ≠ i → k ≠ i + 1 → s'.channelOrder[k]? = s.channelOrder[k]?) ∧
      (s.m_List.selected = some (n - 1) ∨ s.m_List.selected = none →
        s.OnDownarrow = some s) := by
  refine ⟨fun i hsel hpos => ?_, fun h => ?_, fun i hsel hlt => ?_, fun h => ?_⟩
  · have hin : i < n := hwf.2.2 i hsel
    obtain ⟨m, rfl⟩ : ∃ m, i = m + 1 := ⟨i - 1, by omega⟩
    have hup := OnUparrow_succ s m hsel
    obtain ⟨s', hswap, h1, h2, h3⟩ := SwapItems_channelOrder n s hwf m (m + 1) (by omega) hin
    rw [Nat.add_sub_cancel]
    exact ⟨by omega, hin, hup, s', hup.trans hswap, h1, h2, h3⟩
  · rcases h with h | h
    · exact OnUparrow_zero s h
    · exact OnUparrow_none s h
  · have hdown := OnDownarrow_lt s i hsel (by rw [hwf.1]; exact hlt)
    obtain ⟨s', hswap, h1, h2, h3⟩ := SwapItems_channelOrder n s hwf i (i + 1) (by omega) hlt
    exact ⟨by omega, hlt, hdown, s', hdown.trans hswap, h1, h2, h3⟩
  · rcases h with h | h
    · exact OnDownarrow_last s (n - 1) h (by rw [hwf.1]; omega)
    · exact OnDownarrow_none s h

/-- Witness of C20: three channels, the middle item selected. `OnUparrow` gives the order
`[1, 0, 2]` and `OnDownarrow` the order `[0, 2, 1]`. -/
theorem arrows_swap_neighbours_witness :
    OnUparrow { m_List := { items := ["a", "b", "c"], selected := some 1 },
                channelOrder := [0, 1, 2] } =
        some { m_List := { items := ["b", "a", "c"], selected := some 1 },
               channelOrder := [1, 0, 2] } ∧
      OnDownarrow { m_List := { items := ["a", "b", "c"], selected := some 1 },
                    channelOrder := [0, 1, 2] } =
        some { m_List := { items := ["a", "c", "b"], selected := some 1 },
               channelOrder := [0, 2, 1] } ∧
      OnUparrow { m_List := { items := ["a", "b", "c"], selected := some 1 },
                  channelOrder := [0, 1, 2] } =
        SwapItems { m_List := { items := ["a", "b", "c"], selected := some 1 },
                    channelOrder := [0, 1, 2] } ((1 - 1 : Nat) : Int) ((1 : Nat) : Int) :=
  ⟨by decide, by decide,
    ((arrows_swap_neighbours 3
      { m_List := { items := ["a", "b", "c"], selected := some 1 }, channelOrder := [0, 1, 2] }
      ⟨rfl, rfl, fun i hi => by
        cases hi
        decide⟩).1 1 rfl (by decide)).2.2.1⟩

end wxStfOrderChannelsDlg

namespace stfnum

/-! ## Claims on `linsolv` -/

theorem dot_replicate_zero (as : List ℚ) (k : Nat) : dot as (List.replicate k 0) = 0 := by
  induction as generalizing k with
  | nil => rfl
  | cons a as ih =>
    cases k with
    | zero => rfl
    | succ k => simp [List.replicate_succ, dot, ih]

theorem dot_cons_of_length (l : List ℚ) (k : Nat) (hl : l.length = k + 1) (v0 : ℚ)
    (v : List ℚ) : dot l (v0 :: v) = l.headD 0 * v0 + dot l.tail v := by
  cases l with
  | nil => simp at hl
  | cons c cs => simp [dot]

theorem dot_zipWith_sub (l : ℚ) (cs ps x : List ℚ) (h : cs.length = ps.length) :
    dot (List.zipWith (fun c p => c - l * p) cs ps) x = dot cs x - l * dot ps x := by
  induction cs generalizing ps x with
  | nil =>
    cases ps with
    | nil => simp [dot]
    | cons p ps => simp at h
  | cons c cs ih =>
    cases ps with
    | nil => simp at h
    | cons p ps =>
      cases x with
      | nil => simp [dot]
      | cons x0 xs =>
        simp only [List.zipWith_cons_cons, dot, ih ps xs (by simpa using h)]
        ring

theorem dot_eliminate (piv e : List ℚ × ℚ) (k : Nat) (hp : piv.1.length = k + 1)
    (he : e.1.length = k + 1) (x : List ℚ) :
    dot (eliminate piv e).1 x
      = dot e.1.tail x - e.1.headD 0 / piv.1.headD 0 * dot piv.1.tail x := by
  unfold eliminate
  exact dot_zipWith_sub _ _ _ _ (by simp [hp, he])

theorem eliminate_length (piv e : List ℚ × ℚ) (k : Nat) (hp : piv.1.length = k + 1)
    (he : e.1.length = k + 1) : (eliminate piv e).1.length = k := by
  simp [eliminate, hp, he]

theorem argmaxAbs_spec (l : List ℚ) (hl : l ≠ []) :
    argmaxAbs l < l.length ∧ ∀ b ∈ l, |b| ≤ |l.getD (argmaxAbs l) 0| := by
  induction l with
  | nil => exact absurd rfl hl
  | cons a as ih =>
    unfold argmaxAbs
    by_cases hall : as.all (fun b => decide (|b| ≤ |a|)) = true
    · rw [if_pos hall]
      refine ⟨by simp, ?_⟩
      intro b hb
      rw [List.all_eq_true] at hall
      rcases List.mem_cons.mp hb with rfl | hb
      · simp
      · simpa using hall b hb
    · rw [if_neg hall]
      have hne : as ≠ [] := by
        rintro rfl
        exact hall rfl
      obtain ⟨h1, h2⟩ := ih hne
      refine ⟨by simpa using h1, ?_⟩
      have hex : ∃ b ∈ as, |a| < |b| := by
        by_contra hcon
        apply hall
        rw [List.all_eq_true]
        intro b hb
        have : ¬ |a| < |b| := fun h => hcon ⟨b, hb, h⟩
        simpa using this
      obtain ⟨b, hb, hab⟩ := hex
      intro c hc
      have hget : (a :: as).getD (argmaxAbs as + 1) 0 = as.getD (argmaxAbs as) 0 := by
        simp [List.getD]
      rw [hget]
      rcases List.mem_cons.mp hc with rfl | hc
      · exact le_of_lt (lt_of_lt_of_le hab (h2 b hb))
      · exact h2 c hc

theorem set_cons_perm {α : Type} (a : α) (t : List α) (q : Nat) (hq : q < t.length) :
    (t[q] :: t.set q a).Perm (a :: t) := by
  induction t generalizing q with
  | nil => simp at hq
  | cons b t ih =>
    cases q with
    | zero => simpa using List.Perm.swap a b t
    | succ r =>
      have hr : r < t.length := by simpa using hq
      simp only [List.getElem_cons_succ, List.set_cons_succ]
      exact ((List.Perm.swap b t[r] (t.set r a)).trans
        ((ih r hr).cons b)).trans (List.Perm.swap a b t)

theorem pivot_perm {α : Type} (l : List α) (p : Nat) (hp : p < l.length) :
    (l[p] :: (l.set p (l.headD l[p])).tail).Perm l := by
  cases l with
  | nil => simp at hp
  | cons a t =>
    cases p with
    | zero => simp
    | succ q =>
      have hq : q < t.length := by simpa using hp
      simpa using set_cons_perm a t q hq

/-- One step of `gaussSolve` on a non-empty system: the pivot equation has a first
coefficient of largest absolute value, and the other equations are the rest of a
rearrangement of the system. -/
theorem gaussSolve_step (k : Nat) (eqs : List (List ℚ × ℚ)) (hne : eqs ≠ []) :
    ∃ piv rest, (piv :: rest).Perm eqs ∧
      (∀ e ∈ eqs, |e.1.headD 0| ≤ |piv.1.headD 0|) ∧
      gaussSolve (k + 1) eqs =
        if piv.1.headD 0 = 0 then none
        else (gaussSolve k (rest.map (eliminate piv))).map
          fun x => (piv.2 - dot piv.1.tail x) / piv.1.headD 0 :: x := by
  have hne2 : eqs.map (fun e => e.1.headD 0) ≠ [] := by simpa using hne
  obtain ⟨h1, h2⟩ := argmaxAbs_spec _ hne2
  have hp : argmaxAbs (eqs.map fun e => e.1.headD 0) < eqs.length := by simpa using h1
  refine ⟨eqs[argmaxAbs (eqs.map fun e => e.1.headD 0)],
    (eqs.set (argmaxAbs (eqs.map fun e => e.1.headD 0))
      (eqs.headD eqs[argmaxAbs (eqs.map fun e => e.1.headD 0)])).tail,
    pivot_perm eqs _ hp, ?_, ?_⟩
  · intro e he
    have := h2 (e.1.headD 0) (List.mem_map.mpr ⟨e, he, rfl⟩)
    rw [List.getD_eq_getElem _ _ h1] at this
    simpa using this
  · rw [gaussSolve, List.getElem?_eq_getElem hp]
    dsimp only
    by_cases h0 : (eqs[argmaxAbs (eqs.map fun e => e.1.headD 0)]).1.headD 0 = 0
    · rw [if_pos h0, if_pos h0]
    · rw [if_neg h0, if_neg h0]
      cases gaussSolve k _ <;> rfl

theorem pivot_row_solved (p b d : ℚ) (hp : p ≠ 0) : p * ((b - d) / p) + d = b := by
  field_simp

theorem other_row_solved (p c b d bp dp : ℚ) (hp : p ≠ 0)
    (h : d - c / p * dp = b - c / p * bp) : c * ((bp - dp) / p) + d = b := by
  have : c * ((bp - dp) / p) = c / p * bp - c / p * dp := by
    field_simp
    ring
  rw [this]
  linarith

theorem other_row_kernel (p c v0 d dp : ℚ) (hp : p ≠ 0) (h1 : c * v0 + d = 0)
    (h2 : p * v0 + dp = 0) : d - c / p * dp = 0 := by
  have hv : dp = - (p * v0) := by linarith
  rw [hv]
  field_simp
  linear_combination p * h1

theorem gaussSolve_sound (k : Nat) (eqs : List (List ℚ × ℚ)) (x : List ℚ)
    (hlen : eqs.length = k) (hwf : ∀ e ∈ eqs, e.1.length = k)
    (h : gaussSolve k eqs = some x) :
    x.length = k ∧ ∀ e ∈ eqs, dot e.1 x = e.2 := by
  induction k generalizing eqs x with
  | zero =>
    have hx : x = [] := by
      rw [gaussSolve] at h
      exact (Option.some.inj h).symm
    have he : eqs = [] := List.length_eq_zero.mp hlen
    subst hx
    subst he
    simp
  | succ k ih =>
    have hne : eqs ≠ [] := by
      rintro rfl
      simp at hlen
    obtain ⟨piv, rest, hperm, -, hstep⟩ := gaussSolve_step k eqs hne
    rw [hstep] at h
    by_cases h0 : piv.1.headD 0 = 0
    · rw [if_pos h0] at h
      exact absurd h (by simp)
    · rw [if_neg h0] at h
      obtain ⟨x1, hx1, hx⟩ := Option.map_eq_some'.mp h
      have hpiv : piv.1.length = k + 1 := hwf piv (hperm.mem_iff.mp (List.mem_cons_self _ _))
      have hrest : ∀ e ∈ rest, e.1.length = k + 1 := fun e he =>
        hwf e (hperm.mem_iff.mp (List.mem_cons_of_mem _ he))
      have hrl : rest.length = k := by
        have := hperm.length_eq
        simp only [List.length_cons] at this
        omega
      obtain ⟨hl1, hs1⟩ := ih (rest.map (eliminate piv)) x1 (by simpa using hrl)
        (by
          intro e he
          obtain ⟨e0, he0, rfl⟩ := List.mem_map.mp he
          exact eliminate_length piv e0 k hpiv (hrest e0 he0)) hx1
      subst hx
      refine ⟨by simp [hl1], ?_⟩
      intro e he
      rcases List.mem_cons.mp (hperm.mem_iff.mpr he) with rfl | her
      · rw [dot_cons_of_length _ k hpiv]
        exact pivot_row_solved _ _ _ h0
      · have h2 := hs1 (eliminate piv e) (List.mem_map.mpr ⟨e, her, rfl⟩)
        rw [dot_eliminate piv e k hpiv (hrest e her)] at h2
        rw [dot_cons_of_length _ k (hrest e her)]
        exact other_row_solved _ _ _ _ _ _ h0 h2

theorem gaussSolve_kernel_trivial (k : Nat) (eqs : List (List ℚ × ℚ)) (x : List ℚ)
    (hlen : eqs.length = k) (hwf : ∀ e ∈ eqs, e.1.length = k)
    (h : gaussSolve k eqs = some x) (v : List ℚ) (hv : v.length = k)
    (hker : ∀ e ∈ eqs, dot e.1 v = 0) : v = List.replicate k 0 := by
  induction k generalizing eqs x v with
  | zero => simpa using hv
  | succ k ih =>
    have hne : eqs ≠ [] := by
      rintro rfl
      simp at hlen
    obtain ⟨piv, rest, hperm, -, hstep⟩ := gaussSolve_step k eqs hne
    rw [hstep] at h
    by_cases h0 : piv.1.headD 0 = 0
    · rw [if_pos h0] at h
      exact absurd h (by simp)
    · rw [if_neg h0] at h
      obtain ⟨x1, hx1, -⟩ := Option.map_eq_some'.mp h
      have hpm : piv ∈ eqs := hperm.mem_iff.mp (List.mem_cons_self _ _)
      have hpiv : piv.1.length = k + 1 := hwf piv hpm
      have hrm : ∀ e ∈ rest, e ∈ eqs := fun e he =>
        hperm.mem_iff.mp (List.mem_cons_of_mem _ he)
      have hrest : ∀ e ∈ rest, e.1.length = k + 1 := fun e he => hwf e (hrm e he)
      have hrl : rest.length = k := by
        have := hperm.length_eq
        simp only [List.length_cons] at this
        omega
      cases v with
      | nil => simp at hv
      | cons v0 v1 =>
        have hv1 : v1.length = k := by simpa using hv
        have hp := hker piv hpm
        rw [dot_cons_of_length _ k hpiv] at hp
        have hv1z : v1 = List.replicate k 0 := by
          refine ih (rest.map (eliminate piv)) x1 (by simpa using hrl) ?_ hx1 v1 hv1 ?_
          · intro e he
            obtain ⟨e0, he0, rfl⟩ := List.mem_map.mp he
            exact eliminate_length piv e0 k hpiv (hrest e0 he0)
          · intro e he
            obtain ⟨e0, he0, rfl⟩ := List.mem_map.mp he
            rw [dot_eliminate piv e0 k hpiv (hrest e0 he0)]
            have he1 := hker e0 (hrm e0 he0)
            rw [dot_cons_of_length _ k (hrest e0 he0)] at he1
            exact other_row_kernel _ _ _ _ _ h0 he1 hp
        rw [hv1z, dot_replicate_zero, add_zero] at hp
        have hv0 : v0 = 0 := by
          rcases mul_eq_zero.mp hp with h | h
          · exact absurd h h0
          · exact h
        rw [hv0, hv1z, List.replicate_succ]

theorem gaussSolve_none_kernel (k : Nat) (eqs : List (List ℚ × ℚ))
    (hlen : eqs.length = k) (hwf : ∀ e ∈ eqs, e.1.length = k)
    (h : gaussSolve k eqs = none) :
    ∃ v : List ℚ, v.length = k ∧ v ≠ List.replicate k 0 ∧ ∀ e ∈ eqs, dot e.1 v = 0 := by
  induction k generalizing eqs with
  | zero =>
    rw [gaussSolve] at h
    exact absurd h (by simp)
  | succ k ih =>
    have hne : eqs ≠ [] := by
      rintro rfl
      simp at hlen
    obtain ⟨piv, rest, hperm, hmax, hstep⟩ := gaussSolve_step k eqs hne
    rw [hstep] at h
    have hpm : piv ∈ eqs := hperm.mem_iff.mp (List.mem_cons_self _ _)
    have hpiv : piv.1.length = k + 1 := hwf piv hpm
    by_cases h0 : piv.1.headD 0 = 0
    · refine ⟨1 :: List.replicate k 0, by simp, ?_, ?_⟩
      · rw [List.replicate_succ]
        intro hc
        have := (List.cons.inj hc).1
        exact one_ne_zero this
      · intro e he
        rw [dot_cons_of_length _ k (hwf e he), dot_replicate_zero]
        have := hmax e he
        rw [h0, abs_zero] at this
        have : e.1.headD 0 = 0 := abs_eq_zero.mp (le_antisymm this (abs_nonneg _))
        rw [this]
        ring
    · rw [if_neg h0] at h
      have hn : gaussSolve k (rest.map (eliminate piv)) = none := Option.map_eq_none'.mp h
      have hrm : ∀ e ∈ rest, e ∈ eqs := fun e he =>
        hperm.mem_iff.mp (List.mem_cons_of_mem _ he)
      have hrest : ∀ e ∈ rest, e.1.length = k + 1 := fun e he => hwf e (hrm e he)
      have hrl : rest.length = k := by
        have := hperm.length_eq
        simp only [List.length_cons] at this
        omega
      obtain ⟨v1, hv1, hv1n, hv1k⟩ := ih (rest.map (eliminate piv)) (by simpa using hrl)
        (by
          intro e he
          obtain ⟨e0, he0, rfl⟩ := List.mem_map.mp he
          exact eliminate_length piv e0 k hpiv (hrest e0 he0)) hn
      refine ⟨(- dot piv.1.tail v1 / piv.1.headD 0) :: v1, by simp [hv1], ?_, ?_⟩
      · rw [List.replicate_succ]
        intro hc
        exact hv1n (List.cons.inj hc).2
      · intro e he
        rcases List.mem_cons.mp (hperm.mem_iff.mpr he) with rfl | her
        · rw [dot_cons_of_length _ k hpiv]
          have := pivot_row_solved (e.1.headD 0) 0 (dot e.1.tail v1) h0
          rw [zero_sub] at this
          exact this
        · have h2 := hv1k (eliminate piv e) (List.mem_map.mpr ⟨e, her, rfl⟩)
          rw [dot_eliminate piv e k hpiv (hrest e her)] at h2
          rw [dot_cons_of_length _ k (hrest e her)]
          have := other_row_solved (piv.1.headD 0) (e.1.headD 0) 0 (dot e.1.tail v1) 0
            (dot piv.1.tail v1) h0 (by rw [h2]; ring)
          rw [zero_sub] at this
          exact this

theorem dot_eq_sum (as xs : List ℚ) (h : as.length = xs.length) :
    dot as xs = ∑ j in Finset.range as.length, as.getD j 0 * xs.getD j 0 := by
  induction as generalizing xs with
  | nil => simp [dot]
  | cons a as ih =>
    cases xs with
    | nil => simp at h
    | cons x xs =>
      rw [dot, ih xs (by simpa using h), List.length_cons, Finset.sum_range_succ']
      simp [add_comm]

theorem dot_matrixRow (n : Nat) (A v : List ℚ) (i : Nat) (hv : v.length = n) :
    dot (matrixRow n A i) v = ∑ j : Fin n, A.getD (i + j * n) 0 * v.getD j 0 := by
  rw [dot_eq_sum _ _ (by simp [matrixRow, hv]),
    Fin.sum_univ_eq_sum_range (fun j => A.getD (i + j * n) 0 * v.getD j 0) n]
  simp only [matrixRow, List.length_map, List.length_range]
  apply Finset.sum_congr rfl
  intro j hj
  have hj : j < n := Finset.mem_range.mp hj
  simp [List.getD_eq_getElem?_getD, hj]

theorem linearSystem_length (n : Nat) (A B : List ℚ) (c : Nat) :
    (linearSystem n A B c).length = n := by
  simp [linearSystem]

theorem linearSystem_rows (n : Nat) (A B : List ℚ) (c : Nat) :
    ∀ e ∈ linearSystem n A B c, e.1.length = n := by
  intro e he
  obtain ⟨i, -, rfl⟩ := List.mem_map.mp he
  simp [matrixRow]

theorem linearSystem_mem (n : Nat) (A B : List ℚ) (c i : Nat) (hi : i < n) :
    (matrixRow n A i, B.getD (i + c * n) 0) ∈ linearSystem n A B c :=
  List.mem_map.mpr ⟨i, List.mem_range.mpr hi, rfl⟩

theorem gaussSolve_of_det_ne_zero (n : Nat) (A B : List ℚ) (c : Nat)
    (hdet : (Matrix.of fun (i j : Fin n) => A.getD (i + j * n) 0).det ≠ 0) :
    ∃ x, gaussSolve n (linearSystem n A B c) = some x := by
  cases hg : gaussSolve n (linearSystem n A B c) with
  | some x => exact ⟨x, rfl⟩
  | none =>
    exfalso
    obtain ⟨v, hv, hvn, hvk⟩ := gaussSolve_none_kernel n _ (linearSystem_length n A B c)
      (linearSystem_rows n A B c) hg
    apply hdet
    apply Matrix.exists_mulVec_eq_zero_iff.mp
    refine ⟨fun j => v.getD j 0, ?_, ?_⟩
    · intro h0
      apply hvn
      apply List.ext_getElem (by simp [hv])
      intro j h1 h2
      have hj : j < n := by simpa [hv] using h1
      have := congrFun h0 ⟨j, hj⟩
      simp only [Pi.zero_apply] at this
      rw [List.getD_eq_getElem _ _ h1] at this
      simp [this]
    · funext i
      have := hvk _ (linearSystem_mem n A B c i i.2)
      rw [dot_matrixRow n A v i hv] at this
      simpa [Matrix.mulVec, Matrix.dotProduct] using this

theorem gaussSolve_of_det_eq_zero (n : Nat) (A B : List ℚ) (c : Nat)
    (hdet : (Matrix.of fun (i j : Fin n) => A.getD (i + j * n) 0).det = 0) :
    gaussSolve n (linearSystem n A B c) = none := by
  cases hg : gaussSolve n (linearSystem n A B c) with
  | none => rfl
  | some x =>
    exfalso
    obtain ⟨w, hw, hmul⟩ := Matrix.exists_mulVec_eq_zero_iff.mpr hdet
    apply hw
    have hl : (List.ofFn w).length = n := by simp
    have hz := gaussSolve_kernel_trivial n _ x (linearSystem_length n A B c)
      (linearSystem_rows n A B c) hg (List.ofFn w) hl (by
        intro e he
        obtain ⟨i, hi, rfl⟩ := List.mem_map.mp he
        have hi : i < n := List.mem_range.mp hi
        rw [dot_matrixRow n A _ i hl]
        have := congrFun hmul ⟨i, hi⟩
        simp only [Matrix.mulVec, Matrix.dotProduct, Matrix.of_apply, Pi.zero_apply] at this
        refine Eq.trans (Finset.sum_congr rfl ?_) this
        intro j _
        have hwj : (List.ofFn w).getD (j : Nat) 0 = w j := by
          rw [List.getD_eq_getElem _ _ (by simp)]
          simp
        rw [hwj])
    funext j
    have : (List.ofFn w)[(j : Nat)]? = (List.replicate n (0 : ℚ))[(j : Nat)]? := by rw [hz]
    simpa [List.getElem?_replicate, j.2] using this

theorem linsolv_eq (n nrhs : Nat) (A B : List ℚ) (hA : A.length = n * n)
    (hB : B.length = n * nrhs) :
    linsolv n n nrhs A B =
      match gaussSolve n (linearSystem n A [] 0) with
      | none => .error .singular_matrix
      | some _ =>
        .ok ((List.range (n * nrhs)).map fun (idx : Nat) =>
          ((gaussSolve n (linearSystem n A B (idx / n))).getD []).getD (idx % n) 0) := by
  have hc : ¬ ((n : Int) < 0 ∨ (n : Int) ≠ n ∨ (nrhs : Int) < 0 ∨
      (A.length : Int) ≠ n * n ∨ (B.length : Int) ≠ n * nrhs) := by
    rw [hA, hB]
    push_cast
    simp
  rw [linsolv, if_neg hc]
  simp only [Int.toNat_ofNat]

/-- C12: on a square system whose matrix `A` (stored column by column) has a non-zero
determinant, `linsolv(n, n, nrhs, A, B)` succeeds and leaves in `B` a matrix `X` of
the same size with `A·X = B`, entry by entry; when the determinant of `A` is zero it
gives the singular-matrix outcome. -/
theorem linsolv_solves (n nrhs : Nat) (A B : List ℚ) (hA : A.length = n * n)
    (hB : B.length = n * nrhs) :
    ((Matrix.of fun (i j : Fin n) => A.getD (i + j * n) 0).det ≠ 0 →
      ∃ X, linsolv n n nrhs A B = .ok X ∧ X.length = n * nrhs ∧
        ∀ i < n, ∀ c < nrhs,
          ∑ j : Fin n, A.getD (i + j * n) 0 * X.getD (j + c * n) 0 = B.getD (i + c * n) 0) ∧
    ((Matrix.of fun (i j : Fin n) => A.getD (i + j * n) 0).det = 0 →
      linsolv n n nrhs A B = .error .singular_matrix) := by
  constructor
  · intro hdet
    obtain ⟨x0, hx0⟩ := gaussSolve_of_det_ne_zero n A [] 0 hdet
    refine ⟨_, by rw [linsolv_eq n nrhs A B hA hB, hx0], by simp, ?_⟩
    intro i hi c hc
    obtain ⟨x, hx⟩ := gaussSolve_of_det_ne_zero n A B c hdet
    obtain ⟨hxl, hxs⟩ := gaussSolve_sound n _ x (linearSystem_length n A B c)
      (linearSystem_rows n A B c) hx
    have : dot (matrixRow n A i) x = B.getD (i + c * n) 0 :=
      hxs _ (linearSystem_mem n A B c i hi)
    rw [dot_matrixRow n A x i hxl] at this
    rw [← this]
    apply Finset.sum_congr rfl
    intro j _
    have hlt : (j : Nat) + c * n < n * nrhs := by
      calc (j : Nat) + c * n < n + c * n := by have := j.2; omega
        _ = (c + 1) * n := by ring
        _ ≤ nrhs * n := Nat.mul_le_mul_right n hc
        _ = n * nrhs := Nat.mul_comm _ _
    have hn : 0 < n := by omega
    have hX : ((List.range (n * nrhs)).map fun (idx : Nat) =>
        ((gaussSolve n (linearSystem n A B (idx / n))).getD []).getD (idx % n) 0).getD
          ((j : Nat) + c * n) 0 = x.getD (j : Nat) 0 := by
      rw [List.getD_eq_getElem?_getD, List.getElem?_map, List.getElem?_range hlt]
      simp only [Option.map_some', Option.getD_some]
      rw [Nat.add_mul_div_right _ _ hn, Nat.add_mul_mod_self_right, Nat.div_eq_of_lt j.2,
        Nat.mod_eq_of_lt j.2, Nat.zero_add, hx]
      rfl
    rw [hX]
  · intro hdet
    rw [linsolv_eq n nrhs A B hA hB, gaussSolve_of_det_eq_zero n A [] 0 hdet]

theorem linsolv_solves_witness :
    ([2, 1, 1, 3] : List ℚ).length = 2 * 2 ∧ ([3, 5] : List ℚ).length = 2 * 1 ∧
      linsolv 2 2 1 [2, 1, 1, 3] [3, 5] = .ok [4 / 5, 7 / 5] ∧
      linsolv 2 2 1 [1, 2, 2, 4] [3, 5] = .error .singular_matrix ∧
      ∃ X, linsolv (2 : Nat) (2 : Nat) (1 : Nat) [2, 1, 1, 3] [3, 5] = .ok X ∧
        X.length = 2 * 1 ∧
        ∀ i < 2, ∀ c < 1,
          ∑ j : Fin 2, ([2, 1, 1, 3] : List ℚ).getD (i + j * 2) 0 * X.getD (j + c * 2) 0
            = ([3, 5] : List ℚ).getD (i + c * 2) 0 :=
  ⟨rfl, rfl, by with_unfolding_all rfl, by with_unfolding_all rfl,
    (linsolv_solves 2 1 [2, 1, 1, 3] [3, 5] rfl rfl).1 (by
      rw [Matrix.det_fin_two]
      simp
      norm_num)⟩

end stfnum

/-! ## Lemmas on `wxStfChannelSelDlg` -/

theorem int_of_unsigned_of_lt (n : Nat) (h : n < 2 ^ 31) : int_of_unsigned n = (n : Int) := by
  have e : n % 2 ^ 32 = n := Nat.mod_eq_of_lt (lt_trans h (by norm_num))
  unfold int_of_unsigned
  rw [e, if_pos h]

theorem int_of_unsigned_of_ge (n : Nat) (h1 : 2 ^ 31 ≤ n) (h2 : n < 2 ^ 32) :
    int_of_unsigned n = (n : Int) - 2 ^ 32 := by
  have e : n % 2 ^ 32 = n := Nat.mod_eq_of_lt h2
  unfold int_of_unsigned
  rw [e, if_neg (not_lt.mpr h1)]

namespace wxStfChannelSelDlg

theorem ctor_of_two (channelNames : List String) (h : 2 ≤ channelNames.length) :
    ctor channelNames = some
      { m_selChannel1 := 0, m_selChannel2 := 1,
        m_comboBoxCh1 := { items := channelNames, selection := 0 },
        m_comboBoxCh2 := { items := channelNames, selection := 1 } } := by
  have h0 : channelNames[0]? = some channelNames[0] := List.getElem?_eq_getElem (by omega)
  have h1 : channelNames[1]? = some channelNames[1] := List.getElem?_eq_getElem (by omega)
  have s0 : ({ items := channelNames, selection := -1 } : wxComboBox).SetSelection 0
      = some { items := channelNames, selection := 0 } := by
    unfold wxComboBox.SetSelection
    rw [if_pos ⟨le_refl _, by simpa using (by omega : 0 < channelNames.length)⟩]
  have s1 : ({ items := channelNames, selection := -1 } : wxComboBox).SetSelection 1
      = some { items := channelNames, selection := 1 } := by
    unfold wxComboBox.SetSelection
    rw [if_pos ⟨by norm_num, by simpa using (by omega : 1 < channelNames.length)⟩]
  unfold ctor
  rw [h0, h1, s0, s1]
  rfl

/-- The loop of the handlers on combo boxes of `n` items, `2 ≤ n < 2^31`: it ends and
has moved the other combo box to `1` when the touched one shows `0`, else to `0`. -/
theorem correctSelection_of_fits (touched other : wxComboBox) (n : Nat) (h2 : 2 ≤ n)
    (hmax : n < 2 ^ 31) (ht : touched.items.length = n) (ho : other.items.length = n) :
    correctSelection touched other ((int_of_unsigned touched.GetCount).toNat + 1) 0
      = some { other with selection := if touched.selection = 0 then 1 else 0 } := by
  have hc : int_of_unsigned touched.GetCount = (n : Int) := by
    unfold wxComboBox.GetCount
    rw [ht, Nat.mod_eq_of_lt (lt_trans hmax (by norm_num))]
    exact int_of_unsigned_of_lt n hmax
  obtain ⟨k, rfl⟩ : ∃ k, n = k + 2 := ⟨n - 2, by omega⟩
  rw [hc, Int.toNat_ofNat]
  have hlt0 : (0 : Int) < ((k + 2 : Nat) : Int) := by omega
  have hlt1 : (0 : Int) + 1 < ((k + 2 : Nat) : Int) := by omega
  rw [correctSelection, hc, if_pos hlt0]
  by_cases hsel : touched.selection = 0
  · have hn : ¬ ((0 : Int) ≠ touched.GetCurrentSelection) := by
      unfold wxComboBox.GetCurrentSelection
      rw [hsel]
      exact fun h => h rfl
    have hn1 : (0 : Int) + 1 ≠ touched.GetCurrentSelection := by
      unfold wxComboBox.GetCurrentSelection
      rw [hsel]
      norm_num
    rw [if_neg hn, correctSelection, hc, if_pos hlt1, if_pos hn1, if_pos hsel]
    unfold wxComboBox.SetSelection
    rw [if_pos ⟨by norm_num, by rw [ho]; simp⟩]
    rfl
  · have hn : (0 : Int) ≠ touched.GetCurrentSelection := fun h => hsel h.symm
    rw [if_pos hn, if_neg hsel]
    unfold wxComboBox.SetSelection
    rw [if_pos ⟨le_refl _, by rw [ho]; simp⟩]

/-- The handler `OnComboCh1` on combo boxes of `n` items, `2 ≤ n < 2^31`. -/
theorem OnComboCh1_of_fits (s : wxStfChannelSelDlg) (n : Nat) (h2 : 2 ≤ n)
    (hmax : n < 2 ^ 31) (h1 : s.m_comboBoxCh1.items.length = n)
    (h2i : s.m_comboBoxCh2.items.length = n) :
    OnComboCh1 s = some
      (if s.m_comboBoxCh1.selection = s.m_comboBoxCh2.selection then
        { s with m_comboBoxCh2 :=
            { s.m_comboBoxCh2 with
              selection := if s.m_comboBoxCh1.selection = 0 then 1 else 0 } }
      else s) := by
  unfold OnComboCh1
  by_cases hc : s.m_comboBoxCh1.selection = s.m_comboBoxCh2.selection
  · rw [if_pos (show s.m_comboBoxCh1.GetCurrentSelection = s.m_comboBoxCh2.GetCurrentSelection
      from hc), correctSelection_of_fits _ _ n h2 hmax h1 h2i, if_pos hc]
    rfl
  · rw [if_neg (show ¬ s.m_comboBoxCh1.GetCurrentSelection = s.m_comboBoxCh2.GetCurrentSelection
      from hc), if_neg hc]

/-- The handler `OnComboCh2` on combo boxes of `n` items, `2 ≤ n < 2^31`. -/
theorem OnComboCh2_of_fits (s : wxStfChannelSelDlg) (n : Nat) (h2 : 2 ≤ n)
    (hmax : n < 2 ^ 31) (h1 : s.m_comboBoxCh1.items.length = n)
    (h2i : s.m_comboBoxCh2.items.length = n) :
    OnComboCh2 s = some
      (if s.m_comboBoxCh2.selection = s.m_comboBoxCh1.selection then
        { s with m_comboBoxCh1 :=
            { s.m_comboBoxCh1 with
              selection := if s.m_comboBoxCh2.selection = 0 then 1 else 0 } }
      else s) := by
  unfold OnComboCh2
  by_cases hc : s.m_comboBoxCh2.selection = s.m_comboBoxCh1.selection
  · rw [if_pos (show s.m_comboBoxCh2.GetCurrentSelection = s.m_comboBoxCh1.GetCurrentSelection
      from hc), correctSelection_of_fits _ _ n h2 hmax h2i h1, if_pos hc]
    rfl
  · rw [if_neg (show ¬ s.m_comboBoxCh2.GetCurrentSelection = s.m_comboBoxCh1.GetCurrentSelection
      from hc), if_neg hc]

/-- With `2^31` to `2^32 - 1` items the cast `(int)GetCount()` is negative and the loop
body never runs: `OnComboCh1` leaves both combo boxes as they are, clash or not. -/
theorem OnComboCh1_of_cast_neg (s : wxStfChannelSelDlg) (n : Nat)
    (hlen : s.m_comboBoxCh1.items.length = n) (h1 : 2 ^ 31 ≤ n) (h2 : n < 2 ^ 32) :
    OnComboCh1 s = some s := by
  have hcount : ¬ (0 : Int) < int_of_unsigned s.m_comboBoxCh1.GetCount := by
    unfold wxComboBox.GetCount
    rw [hlen, Nat.mod_eq_of_lt h2, int_of_unsigned_of_ge n h1 h2]
    have : ((n : Nat) : Int) < 2 ^ 32 := by exact_mod_cast h2
    linarith
  unfold OnComboCh1
  by_cases hc : s.m_comboBoxCh1.GetCurrentSelection = s.m_comboBoxCh2.GetCurrentSelection
  · rw [if_pos hc, correctSelection, if_neg hcount]
    rfl
  · rw [if_neg hc]

/-- The invariant of the reachable states over `n` channels: both combo boxes hold the
`n` items and show different items of the list. -/
theorem reachable_distinct (channelNames : List String) (h2 : 2 ≤ channelNames.length)
    (hmax : channelNames.length < 2 ^ 31) (s : wxStfChannelSelDlg)
    (h : Reachable channelNames s) :
    s.m_comboBoxCh1.items = channelNames ∧ s.m_comboBoxCh2.items = channelNames ∧
      s.m_comboBoxCh1.selection ≠ s.m_comboBoxCh2.selection ∧
      s.m_selChannel1 ≠ s.m_selChannel2 := by
  induction h with
  | init s hs =>
    rw [ctor_of_two channelNames h2] at hs
    cases hs
    exact ⟨rfl, rfl, (by norm_num : (0 : Int) ≠ 1), (by norm_num : (0 : Int) ≠ 1)⟩
  | comboCh1 s s' i _ hi hs ih =>
    obtain ⟨i1, i2, _, i4⟩ := ih
    rw [OnComboCh1_of_fits _ channelNames.length h2 hmax (by simp [wxComboBox.pick, i1])
      (by simp [i2])] at hs
    cases hs
    by_cases hc : (i : Int) = s.m_comboBoxCh2.selection
    · simp only [wxComboBox.pick, hc, if_true]
      refine ⟨i1, i2, ?_, i4⟩
      by_cases h0 : s.m_comboBoxCh2.selection = 0
      · simp [h0]
      · simp [h0]
    · simp only [wxComboBox.pick, hc, if_false]
      exact ⟨i1, i2, hc, i4⟩
  | comboCh2 s s' i _ hi hs ih =>
    obtain ⟨i1, i2, _, i4⟩ := ih
    rw [OnComboCh2_of_fits _ channelNames.length h2 hmax (by simp [i1])
      (by simp [wxComboBox.pick, i2])] at hs
    cases hs
    by_cases hc : (i : Int) = s.m_comboBoxCh1.selection
    · simp only [wxComboBox.pick, hc, if_true]
      refine ⟨i1, i2, ?_, i4⟩
      by_cases h0 : s.m_comboBoxCh1.selection = 0
      · simp [h0]
      · simp [h0]
        exact fun h => h0 h.symm
    · simp only [wxComboBox.pick, hc, if_false]
      exact ⟨i1, i2, fun h => hc h.symm, i4⟩
  | ok s _ ih =>
    obtain ⟨i1, i2, i3, _⟩ := ih
    exact ⟨i1, i2, i3, i3⟩

end wxStfChannelSelDlg

/-! ## Claims on `wxStfChannelSelDlg` -/

namespace wxStfChannelSelDlg

/-- C21 as stated fails for a dialog of `2^31` channels: the cast `(int)GetCount()` is
`-2^31`, the loop of `OnComboCh1` never runs, and after the user has picked item `1` in
the first combo box both combo boxes show item `1`, also after `OnOK`. -/
theorem selections_differ_counterexample :
    ∃ s : wxStfChannelSelDlg,
      2 ≤ (List.replicate 2147483648 "ch").length ∧
        Reachable (List.replicate 2147483648 "ch") s ∧
        s.m_comboBoxCh1.GetCurrentSelection = s.m_comboBoxCh2.GetCurrentSelection ∧
        s.OnOK.2.m_selChannel1 = s.OnOK.2.m_selChannel2 := by
  refine ⟨{ m_selChannel1 := 0, m_selChannel2 := 1,
            m_comboBoxCh1 := { items := List.replicate 2147483648 "ch", selection := 1 },
            m_comboBoxCh2 := { items := List.replicate 2147483648 "ch", selection := 1 } },
    ?_, ?_, rfl, rfl⟩
  · rw [List.length_replicate]
    norm_num
  · refine Reachable.comboCh1
      { m_selChannel1 := 0, m_selChannel2 := 1,
        m_comboBoxCh1 := { items := List.replicate 2147483648 "ch", selection := 0 },
        m_comboBoxCh2 := { items := List.replicate 2147483648 "ch", selection := 1 } }
      _ 1
      (Reachable.init _ (ctor_of_two _ (by
        rw [List.length_replicate]
        norm_num)))
      (by
        show 1 < (List.replicate 2147483648 "ch").length
        rw [List.length_replicate]
        norm_num) ?_
    exact OnComboCh1_of_cast_neg
      { m_selChannel1 := 0, m_selChannel2 := 1,
        m_comboBoxCh1 := { items := List.replicate 2147483648 "ch", selection := 1 },
        m_comboBoxCh2 := { items := List.replicate 2147483648 "ch", selection := 1 } }
      2147483648 (List.length_replicate _ _) (by norm_num) (by norm_num)

/-- C21 (amended): in a dialog of `n` channels, `2 ≤ n < 2^31`, the constructor selects
items `0` and `1`; in every state reachable by the events of the two combo boxes and
`OnOK` the two combo boxes show different items, and `OnOK` stores different values in
`m_selChannel1` and `m_selChannel2`; after the user has picked item `i` in one combo
box its handler returns, leaves that combo box as picked, leaves the other one alone
when there is no clash, and on a clash moves the other one to the lowest index
different from `i`. -/
theorem selections_differ (channelNames : List String) (h2 : 2 ≤ channelNames.length)
    (hmax : channelNames.length < 2 ^ 31) :
    (∃ s₀, ctor channelNames = some s₀ ∧ s₀.m_comboBoxCh1.GetCurrentSelection = 0 ∧
        s₀.m_comboBoxCh2.GetCurrentSelection = 1) ∧
      ∀ s, Reachable channelNames s →
        s.m_comboBoxCh1.GetCurrentSelection ≠ s.m_comboBoxCh2.GetCurrentSelection ∧
        s.OnOK.2.m_selChannel1 ≠ s.OnOK.2.m_selChannel2 ∧
        (∀ i, i < channelNames.length →
          ∃ s', OnComboCh1 { s with m_comboBoxCh1 := s.m_comboBoxCh1.pick i } = some s' ∧
            s'.m_comboBoxCh1 = s.m_comboBoxCh1.pick i ∧
            ((i : Int) ≠ s.m_comboBoxCh2.GetCurrentSelection →
              s'.m_comboBoxCh2 = s.m_comboBoxCh2) ∧
            ((i : Int) = s.m_comboBoxCh2.GetCurrentSelection →
              0 ≤ s'.m_comboBoxCh2.GetCurrentSelection ∧
              s'.m_comboBoxCh2.GetCurrentSelection < (channelNames.length : Int) ∧
              s'.m_comboBoxCh2.GetCurrentSelection ≠ (i : Int) ∧
              ∀ j : Int, 0 ≤ j → j < s'.m_comboBoxCh2.GetCurrentSelection → j = (i : Int))) ∧
        (∀ i, i < channelNames.length →
          ∃ s', OnComboCh2 { s with m_comboBoxCh2 := s.m_comboBoxCh2.pick i } = some s' ∧
            s'.m_comboBoxCh2 = s.m_comboBoxCh2.pick i ∧
            ((i : Int) ≠ s.m_comboBoxCh1.GetCurrentSelection →
              s'.m_comboBoxCh1 = s.m_comboBoxCh1) ∧
            ((i : Int) = s.m_comboBoxCh1.GetCurrentSelection →
              0 ≤ s'.m_comboBoxCh1.GetCurrentSelection ∧
              s'.m_comboBoxCh1.GetCurrentSelection < (channelNames.length : Int) ∧
              s'.m_comboBoxCh1.GetCurrentSelection ≠ (i : Int) ∧
              ∀ j : Int, 0 ≤ j → j < s'.m_comboBoxCh1.GetCurrentSelection → j = (i : Int))) := by
  refine ⟨⟨_, ctor_of_two channelNames h2, rfl, rfl⟩, ?_⟩
  intro s hs
  obtain ⟨i1, i2, i3, -⟩ := reachable_distinct channelNames h2 hmax s hs
  refine ⟨i3, i3, ?_, ?_⟩
  · intro i _
    refine ⟨_, OnComboCh1_of_fits _ channelNames.length h2 hmax
      (by simp [wxComboBox.pick, i1]) (by simp [i2]), ?_⟩
    by_cases hc : (i : Int) = s.m_comboBoxCh2.selection
    · simp only [wxComboBox.pick, wxComboBox.GetCurrentSelection, hc, if_true]
      refine ⟨trivial, fun h => absurd rfl h, fun _ => ?_⟩
      by_cases h0 : s.m_comboBoxCh2.selection = 0
      · simp only [h0, if_true]
        refine ⟨by norm_num, by omega, by norm_num, ?_⟩
        intro j hj0 hj1
        omega
      · simp only [h0, if_false]
        refine ⟨le_refl _, by omega, fun h => h0 h.symm, ?_⟩
        intro j hj0 hj1
        omega
    · simp only [wxComboBox.pick, wxComboBox.GetCurrentSelection, hc, if_false]
      exact ⟨trivial, fun _ => trivial, fun h => h.elim⟩
  · intro i _
    refine ⟨_, OnComboCh2_of_fits _ channelNames.length h2 hmax
      (by simp [i1]) (by simp [wxComboBox.pick, i2]), ?_⟩
    by_cases hc : (i : Int) = s.m_comboBoxCh1.selection
    · simp only [wxComboBox.pick, wxComboBox.GetCurrentSelection, hc, if_true]
      refine ⟨trivial, fun h => absurd rfl h, fun _ => ?_⟩
      by_cases h0 : s.m_comboBoxCh1.selection = 0
      · simp only [h0, if_true]
        refine ⟨by norm_num, by omega, by norm_num, ?_⟩
        intro j hj0 hj1
        omega
      · simp only [h0, if_false]
        refine ⟨le_refl _, by omega, fun h => h0 h.symm, ?_⟩
        intro j hj0 hj1
        omega
    · simp only [wxComboBox.pick, wxComboBox.GetCurrentSelection, hc, if_false]
      exact ⟨trivial, fun _ => trivial, fun h => h.elim⟩

/-- Witness of C21 (amended): three channels; the user picks item `1` in the first
combo box, which clashes with the second one, and `OnComboCh1` moves the second combo
box to item `0`. -/
theorem selections_differ_witness :
    2 ≤ ["a", "b", "c"].length ∧ ["a", "b", "c"].length < 2 ^ 31 ∧
      Reachable ["a", "b", "c"]
        { m_selChannel1 := 0, m_selChannel2 := 1,
          m_comboBoxCh1 := { items := ["a", "b", "c"], selection := 1 },
          m_comboBoxCh2 := { items := ["a", "b", "c"], selection := 0 } } ∧
      (1 : Int) ≠ 0 :=
  have hreach : Reachable ["a", "b", "c"]
      { m_selChannel1 := 0, m_selChannel2 := 1,
        m_comboBoxCh1 := { items := ["a", "b", "c"], selection := 1 },
        m_comboBoxCh2 := { items := ["a", "b", "c"], selection := 0 } } :=
    Reachable.comboCh1
      { m_selChannel1 := 0, m_selChannel2 := 1,
        m_comboBoxCh1 := { items := ["a", "b", "c"], selection := 0 },
        m_comboBoxCh2 := { items := ["a", "b", "c"], selection := 1 } }
      _ 1 (Reachable.init _ (by decide)) (by decide) (by decide)
  ⟨by decide, by norm_num, hreach,
    ((selections_differ ["a", "b", "c"] (by decide) (by norm_num)).2 _ hreach).1⟩

end wxStfChannelSelDlg
